import Mathlib

/-- The subset of `t_dtype` values relevant to `numpy.cpp`. -/
inductive Dtype where
  | uint8 | uint16 | uint32 | uint64
  | int8 | int16 | int32 | int64
  | float32 | float64
  | bool | str | time | date
  deriving DecidableEq, Repr

/-- The ten fixed-width numeric dtypes (the cases `copy_array` accepts). -/
def isNumericDtype : Dtype → Bool
  | .uint8 | .uint16 | .uint32 | .uint64 => true
  | .int8 | .int16 | .int32 | .int64 => true
  | .float32 | .float64 => true
  | _ => false

/-- Abstract IEEE 64-bit float: NaN, or a finite value as a rational. -/
inductive F64 where
  | nan
  | val (q : ℚ)
  deriving DecidableEq, Repr

/-- `x > c` on doubles (false when `x` is NaN, as in IEEE). -/
def F64.gtQ : F64 → ℚ → Bool
  | .nan, _ => false
  | .val x, c => decide (c < x)

/-- `x < c` on doubles (false when `x` is NaN, as in IEEE). -/
def F64.ltQ : F64 → ℚ → Bool
  | .nan, _ => false
  | .val x, c => decide (x < c)

/-- `npy_isnan` on a value read as `double`. -/
def npyIsnanF : F64 → Bool
  | .nan => true
  | .val _ => false

/-- `npy_isnan` applied to a C++ integer expression: the integer is
converted to `double` by the usual arithmetic conversions, and an integer
value never converts to NaN, so the test is constant `false`. -/
def npyIsnanInt (_ : Int) : Bool := false

/-- C++ `int64 -> double` conversion, idealized as exact. -/
def f64OfInt (n : Int) : F64 := .val n

/-- Two's-complement wrap to a signed 32-bit value. -/
def wrapI32 (n : Int) : Int := (n + 2 ^ 31) % 2 ^ 32 - 2 ^ 31

/-- Two's-complement wrap to a signed 64-bit value. -/
def wrapI64 (n : Int) : Int := (n + 2 ^ 63) % 2 ^ 64 - 2 ^ 63

/-- C++ unsigned `%`: undefined behavior when the divisor is `0`,
modelled as `none`. -/
def mod32? (a b : Nat) : Option Nat := if b = 0 then none else some (a % b)

/-- A stored cell of a destination column. -/
inductive Cell where
  | i (n : Int)
  | f (x : F64)
  | s (v : String)
  | b (v : Bool)
  | d (year month day : Int)
  deriving DecidableEq, Repr

/-- Per-row validity state of a destination column.  `cleared` records a
`clear` transition (absent ab initio), `unsetMarked` records an `unset`
transition (present -> absent on update). -/
inductive Validity where
  | present
  | cleared
  | unsetMarked
  deriving DecidableEq, Repr

/-- The validity transition selected by `is_update`. -/
def absentMark (isUpdate : Bool) : Validity :=
  if isUpdate then .unsetMarked else .cleared

/-- Modelled from the spec: a destination column handle (`t_column`),
with a mutable type tag, typed storage and a parallel validity bitmap. -/
structure Column where
  dtype : Dtype
  data : List Cell
  valid : List Validity
  deriving DecidableEq, Repr

/-- `t_column::size()`. -/
def Column.size (c : Column) : Nat := c.data.length

/-- Well-formedness: the validity bitmap is parallel to the data. -/
def Column.wf (c : Column) : Prop := c.valid.length = c.data.length

/-- Modelled from the spec: `t_column::set_nth(row, value)` writes the
value and marks the row present. -/
def Column.setNth (c : Column) (i : Nat) (v : Cell) : Column :=
  { c with data := c.data.set i v, valid := c.valid.set i .present }

/-- Modelled from the spec: `t_column::unset(row)`. -/
def Column.unset (c : Column) (i : Nat) : Column :=
  { c with valid := c.valid.set i .unsetMarked }

/-- Modelled from the spec: `t_column::clear(row)`. -/
def Column.clear (c : Column) (i : Nat) : Column :=
  { c with valid := c.valid.set i .cleared }

/-- Modelled from the spec: `t_column::valid_raw_fill()` marks every row
present without touching the data. -/
def Column.validRawFill (c : Column) : Column :=
  { c with valid := List.replicate c.valid.length .present }

/-- Cell conversion applied by a copying promotion: the int32 -> float64
promotion re-encodes previously written integers as numerically equal
floats. -/
def promoteCell (newType : Dtype) (v : Cell) : Cell :=
  match newType, v with
  | .float64, .i n => .f (.val n)
  | _, v => v

/-- Convert the first `k` cells by `promoteCell`. -/
def promoteData (newType : Dtype) : Nat → List Cell → List Cell
  | 0, l => l
  | _ + 1, [] => []
  | k + 1, v :: tl => promoteCell newType v :: promoteData newType k tl

/-- Modelled from the spec: `t_data_table::promote_column(name, newType,
fromRow, copyExisting)` rewrites the column's type tag; rows before
`fromRow` are preserved per `copyExisting` (converted when copying, left
in their old encoding otherwise); validity is unchanged. -/
def promoteColumn (c : Column) (newType : Dtype) (fromRow : Nat)
    (copyExisting : Bool) : Column :=
  { dtype := newType
    data := if copyExisting then promoteData newType fromRow c.data else c.data
    valid := c.valid }

/-- The numpy source buffer: one view per C++ pointer reinterpretation.
`f64 i` is `((double*)ptr)[i]`, `i64 i` is `((std::int64_t*)ptr)[i]`, and
so on.  The views are independent because the underlying bytes are opaque;
any concrete buffer induces some `RawArray`. -/
structure RawArray where
  f64 : Nat → F64
  f32 : Nat → F64
  i64 : Nat → Int
  i32 : Nat → Int
  i16 : Nat → Int
  i8 : Nat → Int
  u64 : Nat → Int
  u32 : Nat → Int
  u16 : Nat → Int
  u8 : Nat → Int
  size : Nat

/-- What `_get_numpy_column` returns: the array plus the null-position
list (`mask`). -/
structure SrcData where
  arr : RawArray
  mask : List Nat

/-- The loader's cached state and its accessor capabilities: `names` and
`types` are `m_names` / `m_types`; `getColumnData` is
`_get_numpy_column` (`none` models a non-numpy-array result); the three
marshal functions are the typed views of `accessor.marshal(cidx, i, type)`
(`none` models a Python `None`), with the string view already converted
to bytes as in `fill_string_iter`. -/
structure Loader where
  names : List String
  types : List Dtype
  getColumnData : String → Option SrcData
  marshalStr : Nat → Nat → Option String
  marshalBool : Nat → Nat → Option Bool
  marshalDate : Nat → Nat → Option (Int × Int × Int)

/-- `t_fill_status`. -/
inductive FillStatus where
  | succeed
  | fail
  deriving DecidableEq, Repr

/-- The cell written by `copy_array_helper<T>` for element `j - off` of the
source viewed at the width selected by `np_dtype`. -/
def viewCell (arr : RawArray) (npDtype : Dtype) (j : Nat) : Cell :=
  match npDtype with
  | .uint8 => .i (arr.u8 j)
  | .uint16 => .i (arr.u16 j)
  | .uint32 => .i (arr.u32 j)
  | .uint64 => .i (arr.u64 j)
  | .int8 => .i (arr.i8 j)
  | .int16 => .i (arr.i16 j)
  | .int32 => .i (arr.i32 j)
  | .int64 => .i (arr.i64 j)
  | .float32 => .f (arr.f32 j)
  | .float64 => .f (arr.f64 j)
  | _ => .i 0

/-- `copy_array_helper<T>`: `memcpy(dest->get_nth<T>(offset), src,
dest->size() * sizeof(T))` — element-wise copy of `dest.size()` elements
of the `np_dtype` view into the destination rows starting at `offset`
(always `0` at the call site). -/
def copyArrayHelper (arr : RawArray) (npDtype : Dtype) (dest : Column)
    (off : Nat) : Column :=
  { dest with
    data := (List.range dest.data.length).map fun j =>
      if off ≤ j then viewCell arr npDtype (j - off)
      else dest.data.getD j (.i 0) }

/-- `NumpyLoader::copy_array`: raw copy for each of the ten fixed-width
numeric dtypes, `FILL_FAIL` for every other dtype. -/
def copy_array (arr : RawArray) (dest : Column) (npDtype : Dtype)
    (off : Nat) : FillStatus × Column :=
  match npDtype with
  | .uint8 => (.succeed, copyArrayHelper arr .uint8 dest off)
  | .uint16 => (.succeed, copyArrayHelper arr .uint16 dest off)
  | .uint32 => (.succeed, copyArrayHelper arr .uint32 dest off)
  | .uint64 => (.succeed, copyArrayHelper arr .uint64 dest off)
  | .int8 => (.succeed, copyArrayHelper arr .int8 dest off)
  | .int16 => (.succeed, copyArrayHelper arr .int16 dest off)
  | .int32 => (.succeed, copyArrayHelper arr .int32 dest off)
  | .int64 => (.succeed, copyArrayHelper arr .int64 dest off)
  | .float32 => (.succeed, copyArrayHelper arr .float32 dest off)
  | .float64 => (.succeed, copyArrayHelper arr .float64 dest off)
  | _ => (.fail, dest)

/-- The null-position loop after a successful bulk copy: for each listed
row offset, `unset` on update and `clear` on load. -/
def applyMask (mask : List Nat) (isUpdate : Bool) (col : Column) : Column :=
  mask.foldl (fun c idx => if isUpdate then c.unset idx else c.clear idx) col

/-- Loop body sequence of `NumpyLoader::fill_string_iter`: rows
`i, i+1, ...` for `fuel` iterations. -/
def fillStringGo (L : Loader) (cidx : Nat) (isUpdate : Bool) :
    Nat → Nat → Column → Column
  | 0, _, col => col
  | fuel + 1, i, col =>
    match L.marshalStr cidx i with
    | none =>
        fillStringGo L cidx isUpdate fuel (i + 1)
          (if isUpdate then col.unset i else col.clear i)
    | some s =>
        fillStringGo L cidx isUpdate fuel (i + 1) (col.setNth i (.s s))

/-- `NumpyLoader::fill_string_iter`. -/
def fill_string_iter (L : Loader) (cidx : Nat) (isUpdate : Bool)
    (col : Column) : Column :=
  fillStringGo L cidx isUpdate col.size 0 col

/-- Loop body sequence of `NumpyLoader::fill_bool_iter`. -/
def fillBoolGo (L : Loader) (cidx : Nat) (isUpdate : Bool) :
    Nat → Nat → Column → Column
  | 0, _, col => col
  | fuel + 1, i, col =>
    match L.marshalBool cidx i with
    | none =>
        fillBoolGo L cidx isUpdate fuel (i + 1)
          (if isUpdate then col.unset i else col.clear i)
    | some v =>
        fillBoolGo L cidx isUpdate fuel (i + 1) (col.setNth i (.b v))

/-- `NumpyLoader::fill_bool_iter`. -/
def fill_bool_iter (L : Loader) (cidx : Nat) (isUpdate : Bool)
    (col : Column) : Column :=
  fillBoolGo L cidx isUpdate col.size 0 col

/-- Loop body sequence of `NumpyLoader::fill_date_iter`. -/
def fillDateGo (L : Loader) (cidx : Nat) (isUpdate : Bool) :
    Nat → Nat → Column → Column
  | 0, _, col => col
  | fuel + 1, i, col =>
    match L.marshalDate cidx i with
    | none =>
        fillDateGo L cidx isUpdate fuel (i + 1)
          (if isUpdate then col.unset i else col.clear i)
    | some (y, m, d) =>
        fillDateGo L cidx isUpdate fuel (i + 1) (col.setNth i (.d y m d))

/-- `NumpyLoader::fill_date_iter`. -/
def fill_date_iter (L : Loader) (cidx : Nat) (isUpdate : Bool)
    (col : Column) : Column :=
  fillDateGo L cidx isUpdate col.size 0 col

/-- Loop body sequence of `NumpyLoader::fill_datetime_iter`:
`item = ptr[i] * 1000` is 64-bit arithmetic (wrapping), and
`npy_isnan(item)` tests an integer, hence is constant false. -/
def fillDatetimeGo (arr : RawArray) (isUpdate : Bool) :
    Nat → Nat → Column → Column
  | 0, _, col => col
  | fuel + 1, i, col =>
    let item := wrapI64 (arr.i64 i * 1000)
    if npyIsnanInt item then
      fillDatetimeGo arr isUpdate fuel (i + 1)
        (if isUpdate then col.unset i else col.clear i)
    else
      fillDatetimeGo arr isUpdate fuel (i + 1) (col.setNth i (.i item))

/-- `NumpyLoader::fill_datetime_iter`. -/
def fill_datetime_iter (arr : RawArray) (isUpdate : Bool)
    (col : Column) : Column :=
  fillDatetimeGo arr isUpdate col.size 0 col

/-- The int32 overflow test `item > 2147483647 || item < -2147483648`. -/
def outOfRange32 (x : F64) : Bool :=
  x.gtQ 2147483647 || x.ltQ (-2147483648)

/-- Loop body sequence of `NumpyLoader::fill_numeric_iter`.  The `type`
argument is the function's local (mutable) copy of the destination dtype;
the int32 overflow branch promotes the column in place (the C++ promotes
through the table by the column's name and rebinds the handle, modelled
here directly on the handle).  The int64/float64 NaN branches promote to
string and return the result of `fill_string_iter` immediately. -/
def fillNumericGo (L : Loader) (arr : RawArray) (cidx : Nat)
    (npDtype : Dtype) (isUpdate : Bool) :
    Nat → Nat → Column → Dtype → Column
  | 0, _, col, _ => col
  | fuel + 1, i, col, type =>
    if npyIsnanF (arr.f64 i) then
      fillNumericGo L arr cidx npDtype isUpdate fuel (i + 1)
        (if isUpdate then col.unset i else col.clear i) type
    else
      match type with
      | .uint8 =>
          fillNumericGo L arr cidx npDtype isUpdate fuel (i + 1)
            (col.setNth i (.i (arr.u8 i))) type
      | .uint16 =>
          fillNumericGo L arr cidx npDtype isUpdate fuel (i + 1)
            (col.setNth i (.i (arr.u16 i))) type
      | .uint32 =>
          fillNumericGo L arr cidx npDtype isUpdate fuel (i + 1)
            (col.setNth i (.i (arr.u32 i))) type
      | .uint64 =>
          fillNumericGo L arr cidx npDtype isUpdate fuel (i + 1)
            (col.setNth i (.i (arr.u64 i))) type
      | .int8 =>
          fillNumericGo L arr cidx npDtype isUpdate fuel (i + 1)
            (col.setNth i (.i (arr.i8 i))) type
      | .int16 =>
          fillNumericGo L arr cidx npDtype isUpdate fuel (i + 1)
            (col.setNth i (.i (arr.i16 i))) type
      | .int32 =>
          let item := arr.f64 i
          if outOfRange32 item then
            fillNumericGo L arr cidx npDtype isUpdate fuel (i + 1)
              ((promoteColumn col .float64 i true).setNth i (.f item))
              .float64
          else if npDtype = .int64 then
            fillNumericGo L arr cidx npDtype isUpdate fuel (i + 1)
              (col.setNth i (.i (wrapI32 (arr.i64 i)))) type
          else
            fillNumericGo L arr cidx npDtype isUpdate fuel (i + 1)
              (col.setNth i (.i (arr.i32 i))) type
      | .int64 =>
          let item := arr.i64 i
          if npyIsnanInt item then
            fill_string_iter L cidx isUpdate (promoteColumn col .str i false)
          else
            fillNumericGo L arr cidx npDtype isUpdate fuel (i + 1)
              (col.setNth i (.i item)) type
      | .float32 =>
          fillNumericGo L arr cidx npDtype isUpdate fuel (i + 1)
            (col.setNth i (.f (arr.f32 i))) type
      | .float64 =>
          let item := arr.f64 i
          if npyIsnanF item then
            fill_string_iter L cidx isUpdate (promoteColumn col .str i false)
          else if npDtype = .int64 then
            fillNumericGo L arr cidx npDtype isUpdate fuel (i + 1)
              (col.setNth i (.f (f64OfInt (arr.i64 i)))) type
          else
            fillNumericGo L arr cidx npDtype isUpdate fuel (i + 1)
              (col.setNth i (.f item)) type
      | _ =>
          fillNumericGo L arr cidx npDtype isUpdate fuel (i + 1) col type

/-- `NumpyLoader::fill_numeric_iter`. -/
def fill_numeric_iter (L : Loader) (arr : RawArray) (cidx : Nat)
    (npDtype : Dtype) (isUpdate : Bool) (type : Dtype)
    (col : Column) : Column :=
  fillNumericGo L arr cidx npDtype isUpdate col.size 0 col type

/-- `NumpyLoader::fill_column_iter`: dispatch on the destination dtype. -/
def fill_column_iter (L : Loader) (arr : RawArray) (npDtype type : Dtype)
    (cidx : Nat) (isUpdate : Bool) (col : Column) : Column :=
  match type with
  | .time => fill_datetime_iter arr isUpdate col
  | .date => fill_date_iter L cidx isUpdate col
  | .bool => fill_bool_iter L cidx isUpdate col
  | .str => fill_string_iter L cidx isUpdate col
  | _ => fill_numeric_iter L arr cidx npDtype isUpdate type col

/-- Which of the two fill paths `fill_column` used. -/
inductive FillPath where
  | bulk
  | iter
  deriving DecidableEq, Repr

/-- Body of `NumpyLoader::fill_column` after the source column has been
fetched: the wide-int64 mismatch guard, then the bulk-copy attempt with
mask application on success, iterative fallback on failure.  Also reports
which path was taken. -/
def fill_column_data (L : Loader) (arr : RawArray) (mask : List Nat)
    (npDtype type : Dtype) (cidx : Nat) (isUpdate : Bool)
    (col : Column) : Column × FillPath :=
  if npDtype = .int64 ∧ (type = .int32 ∨ type = .float64) then
    (fill_column_iter L arr npDtype type cidx isUpdate col, .iter)
  else
    match copy_array arr col npDtype 0 with
    | (.succeed, col1) =>
        (applyMask mask isUpdate col1.validRawFill, .bulk)
    | (.fail, _) =>
        (fill_column_iter L arr npDtype type cidx isUpdate col, .iter)

/-- `NumpyLoader::fill_column`: resolve the name against `m_names`
(first match), fetch the source column, read `np_dtype` from `m_types`
at the name's index, then fill.  `none` models the
`PSP_COMPLAIN_AND_ABORT` paths (name not found / non-numpy array). -/
def fill_column (L : Loader) (col : Column) (name : String) (type : Dtype)
    (cidx : Nat) (isUpdate : Bool) : Option (Column × FillPath) :=
  match L.names.findIdx? (· = name) with
  | none => none
  | some nidx =>
    match L.getColumnData name with
    | none => none
    | some src =>
        some (fill_column_data L src.arr src.mask (L.types.getD nidx .str)
          type cidx isUpdate col)

/-- Modelled from the spec: the destination table (`t_data_table`): a row
capacity and named columns.  Column operations never change the row
capacity. -/
structure Table where
  size : Nat
  cols : List (String × Column)
  deriving DecidableEq

/-- First-match lookup among the table's columns. -/
def lookupCol : List (String × Column) → String → Option Column
  | [], _ => none
  | (m, c) :: tl, n => if m = n then some c else lookupCol tl n

/-- Replace the first column named `n` (append if absent). -/
def updateCols : List (String × Column) → String → Column → List (String × Column)
  | [], n, c => [(n, c)]
  | (m, d) :: tl, n, c =>
      if m = n then (m, c) :: tl else (m, d) :: updateCols tl n c

/-- Modelled from the spec: `t_data_table::get_column(name)`. -/
def Table.getColumn (t : Table) (n : String) : Option Column :=
  lookupCol t.cols n

/-- Store a column under a name. -/
def Table.setCol (t : Table) (n : String) (c : Column) : Table :=
  { t with cols := updateCols t.cols n c }

/-- Modelled from the spec: `t_data_table::add_column(name, type, true)`
binds a fresh column of the table's row capacity under `name`. -/
def Table.addColumn (t : Table) (n : String) (ty : Dtype) : Table :=
  t.setCol n
    { dtype := ty
      data := List.replicate t.size (.i 0)
      valid := List.replicate t.size .cleared }

/-- Modelled from the spec: `t_data_table::clone_column(src, dst)` copies
the source column verbatim under the destination name (`none` when the
source column does not exist, which aborts the call). -/
def Table.cloneColumn (t : Table) (src dst : String) : Option Table :=
  match t.getColumn src with
  | none => none
  | some c => some (t.setCol dst c)

/-- One iteration of the schema loop of `NumpyLoader::fill_table`: the
`__INDEX__` sentinel column is filled into `psp_pkey` which is then cloned
into `psp_okey` (setting the implicit-index flag); any other schema column
is looked up in the table and filled in place. -/
def processOne (L : Loader) (isUpdate : Bool) (tbl : Table) (flag : Bool)
    (cidx : Nat) (name : String) (ty : Dtype) : Option (Table × Bool) :=
  if name = "__INDEX__" then
    match (tbl.addColumn "psp_pkey" ty).getColumn "psp_pkey" with
    | none => none
    | some pk =>
      match fill_column L pk "__INDEX__" ty cidx isUpdate with
      | none => none
      | some (pk1, _) =>
          match ((tbl.addColumn "psp_pkey" ty).setCol "psp_pkey"
              pk1).cloneColumn "psp_pkey" "psp_okey" with
          | none => none
          | some t2 => some (t2, true)
  else
    match tbl.getColumn name with
    | none => none
    | some c =>
      match fill_column L c name ty cidx isUpdate with
      | none => none
      | some (c1, _) => some (tbl.setCol name c1, flag)

/-- The schema loop of `NumpyLoader::fill_table`, with `cidx` tracking the
schema position. -/
def processColumns (L : Loader) (isUpdate : Bool) :
    Nat → List (String × Dtype) → Table → Bool → Option (Table × Bool)
  | _, [], tbl, flag => some (tbl, flag)
  | cidx, (name, ty) :: rest, tbl, flag =>
    match processOne L isUpdate tbl flag cidx name ty with
    | none => none
    | some (t1, flag1) => processColumns L isUpdate (cidx + 1) rest t1 flag1

/-- The row-number index loop: writes `(ridx + offset) % limit` (uint32
arithmetic, converted to int32 by `set_nth<std::int32_t>`) into both index
columns.  `% limit` is C++ unsigned modulus: undefined (hence `none`) when
`limit = 0`. -/
def genGo (offset limit : Nat) :
    Nat → Nat → Column → Column → Option (Column × Column)
  | 0, _, pk, ok => some (pk, ok)
  | fuel + 1, ridx, pk, ok =>
    match mod32? ((ridx + offset) % 2 ^ 32) limit with
    | none => none
    | some v =>
        genGo offset limit fuel (ridx + 1)
          (pk.setNth ridx (.i (wrapI32 v))) (ok.setNth ridx (.i (wrapI32 v)))

/-- The index-synthesis epilogue of `NumpyLoader::fill_table`: skipped
when the `__INDEX__` sentinel was seen; otherwise generate row numbers
into fresh `psp_pkey` / `psp_okey` columns when no index name was given,
or clone the named index column into both. -/
def synthesizeIndex (tbl : Table) (implicit : Bool) (index : String)
    (offset limit : Nat) : Option Table :=
  if implicit then some tbl
  else if index = "" then
    match ((tbl.addColumn "psp_pkey" .int32).addColumn "psp_okey"
        .int32).getColumn "psp_pkey",
      ((tbl.addColumn "psp_pkey" .int32).addColumn "psp_okey"
        .int32).getColumn "psp_okey" with
    | some pk, some ok =>
      match genGo offset limit
        ((tbl.addColumn "psp_pkey" .int32).addColumn "psp_okey" .int32).size
        0 pk ok with
      | none => none
      | some (pk1, ok1) =>
          some ((((tbl.addColumn "psp_pkey" .int32).addColumn "psp_okey"
            .int32).setCol "psp_pkey" pk1).setCol "psp_okey" ok1)
    | _, _ => none
  else
    match tbl.cloneColumn index "psp_pkey" with
    | none => none
    | some t1 => t1.cloneColumn index "psp_okey"

/-- `NumpyLoader::fill_table`: fill every schema column, then synthesize
the index columns. -/
def fill_table (L : Loader) (tbl : Table) (schema : List (String × Dtype))
    (index : String) (offset limit : Nat) (isUpdate : Bool) : Option Table :=
  match processColumns L isUpdate 0 schema tbl false with
  | none => none
  | some (t1, implicit) => synthesizeIndex t1 implicit index offset limit

/-- A loop step that, at row `i`, optionally overwrites the data cell and
optionally overwrites the validity mark — and touches nothing else. -/
def stepOf (dataOut : Nat → Option Cell) (validOut : Nat → Option Validity)
    (i : Nat) (c : Column) : Column :=
  { c with
    data := match dataOut i with | some v => c.data.set i v | none => c.data
    valid := match validOut i with | some w => c.valid.set i w | none => c.valid }

/-- Iterate a step over rows `i, i+1, ...` for `fuel` iterations. -/
def loopGo (step : Nat → Column → Column) : Nat → Nat → Column → Column
  | 0, _, c => c
  | fuel + 1, i, c => loopGo step fuel (i + 1) (step i c)

/-- One iteration of `fill_numeric_iter`'s loop, with the (unreachable)
early returns removed; returns the updated column and destination dtype. -/
def numericStep (arr : RawArray) (npDtype : Dtype) (isUpdate : Bool)
    (i : Nat) (col : Column) (type : Dtype) : Column × Dtype :=
  if npyIsnanF (arr.f64 i) then
    ((if isUpdate then col.unset i else col.clear i), type)
  else
    match type with
    | .uint8 => (col.setNth i (.i (arr.u8 i)), type)
    | .uint16 => (col.setNth i (.i (arr.u16 i)), type)
    | .uint32 => (col.setNth i (.i (arr.u32 i)), type)
    | .uint64 => (col.setNth i (.i (arr.u64 i)), type)
    | .int8 => (col.setNth i (.i (arr.i8 i)), type)
    | .int16 => (col.setNth i (.i (arr.i16 i)), type)
    | .int32 =>
        if outOfRange32 (arr.f64 i) then
          ((promoteColumn col .float64 i true).setNth i (.f (arr.f64 i)),
            .float64)
        else if npDtype = .int64 then
          (col.setNth i (.i (wrapI32 (arr.i64 i))), type)
        else
          (col.setNth i (.i (arr.i32 i)), type)
    | .int64 => (col.setNth i (.i (arr.i64 i)), type)
    | .float32 => (col.setNth i (.f (arr.f32 i)), type)
    | .float64 =>
        if npDtype = .int64 then
          (col.setNth i (.f (f64OfInt (arr.i64 i))), type)
        else
          (col.setNth i (.f (arr.f64 i)), type)
    | _ => (col, type)

/-- The cell a non-promoting `fill_numeric_iter` iteration writes for a
non-NaN row (`none` for the skipping default case; the int32 destination
is handled separately because of promotion). -/
def numericWrite (arr : RawArray) (npDtype type : Dtype) (j : Nat) :
    Option Cell :=
  match type with
  | .uint8 => some (.i (arr.u8 j))
  | .uint16 => some (.i (arr.u16 j))
  | .uint32 => some (.i (arr.u32 j))
  | .uint64 => some (.i (arr.u64 j))
  | .int8 => some (.i (arr.i8 j))
  | .int16 => some (.i (arr.i16 j))
  | .int64 => some (.i (arr.i64 j))
  | .float32 => some (.f (arr.f32 j))
  | .float64 =>
      some (.f (if npDtype = .int64 then f64OfInt (arr.i64 j) else arr.f64 j))
  | _ => none

/-- Data effect of a `fill_numeric_iter` iteration (non-int32 target). -/
def numDataOut (arr : RawArray) (npDtype type : Dtype) (j : Nat) :
    Option Cell :=
  if npyIsnanF (arr.f64 j) then none else numericWrite arr npDtype type j

/-- Validity effect of a `fill_numeric_iter` iteration (non-int32
target). -/
def numValidOut (arr : RawArray) (npDtype : Dtype) (isUpdate : Bool)
    (type : Dtype) (j : Nat) : Option Validity :=
  if npyIsnanF (arr.f64 j) then some (absentMark isUpdate)
  else
    match numericWrite arr npDtype type j with
    | some _ => some .present
    | none => none

/-- Data effect of a `fill_string_iter` iteration. -/
def strDataOut (L : Loader) (cidx j : Nat) : Option Cell :=
  (L.marshalStr cidx j).map Cell.s

/-- Validity effect of a `fill_string_iter` iteration. -/
def strValidOut (L : Loader) (cidx : Nat) (isUpdate : Bool) (j : Nat) :
    Option Validity :=
  match L.marshalStr cidx j with
  | none => some (absentMark isUpdate)
  | some _ => some .present

/-- Data effect of a `fill_bool_iter` iteration. -/
def boolDataOut (L : Loader) (cidx j : Nat) : Option Cell :=
  (L.marshalBool cidx j).map Cell.b

/-- Validity effect of a `fill_bool_iter` iteration. -/
def boolValidOut (L : Loader) (cidx : Nat) (isUpdate : Bool) (j : Nat) :
    Option Validity :=
  match L.marshalBool cidx j with
  | none => some (absentMark isUpdate)
  | some _ => some .present

/-- Data effect of a `fill_date_iter` iteration. -/
def dateDataOut (L : Loader) (cidx j : Nat) : Option Cell :=
  (L.marshalDate cidx j).map fun p => Cell.d p.1 p.2.1 p.2.2

/-- Validity effect of a `fill_date_iter` iteration. -/
def dateValidOut (L : Loader) (cidx : Nat) (isUpdate : Bool) (j : Nat) :
    Option Validity :=
  match L.marshalDate cidx j with
  | none => some (absentMark isUpdate)
  | some _ => some .present

/-- Data effect of a `fill_datetime_iter` iteration: every row is written
(the NaN test on an integer is constant false). -/
def dtDataOut (arr : RawArray) (j : Nat) : Option Cell :=
  some (.i (wrapI64 (arr.i64 j * 1000)))

/-- Validity effect of a `fill_datetime_iter` iteration. -/
def dtValidOut (_ : Nat) : Option Validity := some .present

/-- Data effect of an in-range int32 iteration. -/
def i32DataOut (arr : RawArray) (npDtype : Dtype) (j : Nat) : Option Cell :=
  if npyIsnanF (arr.f64 j) then none
  else some (.i (if npDtype = .int64 then wrapI32 (arr.i64 j) else arr.i32 j))

/-- Validity effect of an in-range int32 iteration. -/
def i32ValidOut (arr : RawArray) (isUpdate : Bool) (j : Nat) :
    Option Validity :=
  if npyIsnanF (arr.f64 j) then some (absentMark isUpdate) else some .present


/-! ## Concrete fixtures used by witnesses and counterexamples -/

/-- A loader with no columns and no marshal values. -/
def L0 : Loader :=
  { names := [], types := [], getColumnData := fun _ => none
    marshalStr := fun _ _ => none, marshalBool := fun _ _ => none
    marshalDate := fun _ _ => none }

/-- An all-zero source buffer. -/
def zeroArr : RawArray :=
  { f64 := fun _ => .val 0, f32 := fun _ => .val 0, i64 := fun _ => 0
    i32 := fun _ => 0, i16 := fun _ => 0, i8 := fun _ => 0
    u64 := fun _ => 0, u32 := fun _ => 0, u16 := fun _ => 0
    u8 := fun _ => 0, size := 0 }

/-- Source whose double view is `[1, 3e9, 2]` (row 1 overflows int32). -/
def arrC1 : RawArray :=
  { zeroArr with
    f64 := fun j => [F64.val 1, F64.val 3000000000, F64.val 2].getD j (.val 0)
    i32 := fun j => [5, 6, 7].getD j 0
    size := 3 }

/-- A three-row int32 destination column. -/
def colC1 : Column :=
  ⟨.int32, [.i 0, .i 0, .i 0], [.cleared, .cleared, .cleared]⟩

/-- Source whose double view is NaN everywhere. -/
def arrNaN : RawArray := { zeroArr with f64 := fun _ => .nan, size := 1 }

/-- A one-row float64 destination column. -/
def colF64 : Column := ⟨.float64, [.i 0], [.present]⟩

/-- Source whose int64 view is the numpy NaT sentinel everywhere. -/
def arrNaT : RawArray :=
  { zeroArr with i64 := fun _ => -(2 ^ 63), size := 1 }

/-- A one-row datetime destination column. -/
def colTime : Column := ⟨.time, [.i 0], [.cleared]⟩

/-- A one-row int32 destination column. -/
def colI32 : Column := ⟨.int32, [.i 0], [.cleared]⟩

/-- A one-row table with no columns. -/
def tbl1 : Table := ⟨1, []⟩

/-- An eight-row table with no columns. -/
def tblC6 : Table := ⟨8, []⟩

/-- The index column generated for `offset = 5`, `limit = 10`, 8 rows. -/
def pkC6 : Column :=
  ⟨.int32, [.i 5, .i 6, .i 7, .i 8, .i 9, .i 0, .i 1, .i 2],
    List.replicate 8 .present⟩

/-- The table produced by `fill_table` on `tblC6`. -/
def tC6 : Table := ⟨8, [("psp_pkey", pkC6), ("psp_okey", pkC6)]⟩

/-- The index column generated for `offset = 0`, `limit = 1`, 1 row. -/
def pkC9 : Column := ⟨.int32, [.i 0], [.present]⟩

/-- The table produced by `fill_table` on `tbl1`. -/
def tC9 : Table := ⟨1, [("psp_pkey", pkC9), ("psp_okey", pkC9)]⟩

/-! ## Lemmas and claim theorems -/

theorem stepOf_dtype (d : Nat → Option Cell) (v : Nat → Option Validity)
    (i : Nat) (c : Column) : (stepOf d v i c).dtype = c.dtype := rfl

theorem stepOf_data_length (d : Nat → Option Cell) (v : Nat → Option Validity)
    (i : Nat) (c : Column) : (stepOf d v i c).data.length = c.data.length := by
  unfold stepOf
  cases d i <;> simp

theorem stepOf_valid_length (d : Nat → Option Cell) (v : Nat → Option Validity)
    (i : Nat) (c : Column) : (stepOf d v i c).valid.length = c.valid.length := by
  unfold stepOf
  cases v i <;> simp

theorem stepOf_data_get_ne (d : Nat → Option Cell) (v : Nat → Option Validity)
    (i : Nat) (c : Column) (j : Nat) (h : i ≠ j) :
    (stepOf d v i c).data[j]? = c.data[j]? := by
  unfold stepOf
  cases d i <;> simp [List.getElem?_set_ne h]

theorem stepOf_valid_get_ne (d : Nat → Option Cell) (v : Nat → Option Validity)
    (i : Nat) (c : Column) (j : Nat) (h : i ≠ j) :
    (stepOf d v i c).valid[j]? = c.valid[j]? := by
  unfold stepOf
  cases v i <;> simp [List.getElem?_set_ne h]

theorem loopGo_stepOf_dtype (d : Nat → Option Cell) (v : Nat → Option Validity) :
    ∀ fuel i c, (loopGo (stepOf d v) fuel i c).dtype = c.dtype := by
  intro fuel
  induction fuel with
  | zero => intro i c; rfl
  | succ n ih => intro i c; simp only [loopGo, ih, stepOf_dtype]

theorem loopGo_stepOf_data_length (d : Nat → Option Cell)
    (v : Nat → Option Validity) :
    ∀ fuel i c, (loopGo (stepOf d v) fuel i c).data.length = c.data.length := by
  intro fuel
  induction fuel with
  | zero => intro i c; rfl
  | succ n ih => intro i c; simp only [loopGo, ih, stepOf_data_length]

theorem loopGo_stepOf_valid_length (d : Nat → Option Cell)
    (v : Nat → Option Validity) :
    ∀ fuel i c, (loopGo (stepOf d v) fuel i c).valid.length = c.valid.length := by
  intro fuel
  induction fuel with
  | zero => intro i c; rfl
  | succ n ih => intro i c; simp only [loopGo, ih, stepOf_valid_length]

theorem loopGo_stepOf_data_lt (d : Nat → Option Cell)
    (v : Nat → Option Validity) :
    ∀ fuel i c j, j < i → (loopGo (stepOf d v) fuel i c).data[j]? = c.data[j]? := by
  intro fuel
  induction fuel with
  | zero => intro i c j _; rfl
  | succ n ih =>
      intro i c j hj
      rw [loopGo, ih (i + 1) _ j (Nat.lt_succ_of_lt hj),
        stepOf_data_get_ne _ _ _ _ _ (Nat.ne_of_gt hj)]

theorem loopGo_stepOf_valid_lt (d : Nat → Option Cell)
    (v : Nat → Option Validity) :
    ∀ fuel i c j, j < i → (loopGo (stepOf d v) fuel i c).valid[j]? = c.valid[j]? := by
  intro fuel
  induction fuel with
  | zero => intro i c j _; rfl
  | succ n ih =>
      intro i c j hj
      rw [loopGo, ih (i + 1) _ j (Nat.lt_succ_of_lt hj),
        stepOf_valid_get_ne _ _ _ _ _ (Nat.ne_of_gt hj)]

theorem loopGo_stepOf_data_ge (d : Nat → Option Cell)
    (v : Nat → Option Validity) :
    ∀ fuel i c j, i + fuel ≤ j →
      (loopGo (stepOf d v) fuel i c).data[j]? = c.data[j]? := by
  intro fuel
  induction fuel with
  | zero => intro i c j _; rfl
  | succ n ih =>
      intro i c j hj
      have hij : i ≠ j := by omega
      rw [loopGo, ih (i + 1) _ j (by omega), stepOf_data_get_ne _ _ _ _ _ hij]

theorem loopGo_stepOf_valid_ge (d : Nat → Option Cell)
    (v : Nat → Option Validity) :
    ∀ fuel i c j, i + fuel ≤ j →
      (loopGo (stepOf d v) fuel i c).valid[j]? = c.valid[j]? := by
  intro fuel
  induction fuel with
  | zero => intro i c j _; rfl
  | succ n ih =>
      intro i c j hj
      have hij : i ≠ j := by omega
      rw [loopGo, ih (i + 1) _ j (by omega), stepOf_valid_get_ne _ _ _ _ _ hij]

theorem loopGo_stepOf_data_mem (d : Nat → Option Cell)
    (v : Nat → Option Validity) :
    ∀ fuel i c j, i ≤ j → j < i + fuel →
      (loopGo (stepOf d v) fuel i c).data[j]? = (stepOf d v j c).data[j]? := by
  intro fuel
  induction fuel with
  | zero => intro i c j h1 h2; omega
  | succ n ih =>
      intro i c j h1 h2
      rcases Nat.eq_or_lt_of_le h1 with heq | hlt
      · subst heq
        rw [loopGo, loopGo_stepOf_data_lt d v n (i + 1) _ i (Nat.lt_succ_self i)]
      · rw [loopGo, ih (i + 1) _ j hlt (by omega)]
        show (stepOf d v j (stepOf d v i c)).data[j]? = (stepOf d v j c).data[j]?
        have hne : i ≠ j := Nat.ne_of_lt hlt
        have hlen : (stepOf d v i c).data.length = c.data.length :=
          stepOf_data_length d v i c
        have hget : (stepOf d v i c).data[j]? = c.data[j]? :=
          stepOf_data_get_ne d v i c j hne
        generalize stepOf d v i c = c1 at hlen hget
        cases hd : d j with
        | none => simp only [stepOf, hd]; exact hget
        | some x =>
            simp only [stepOf, hd]
            rw [List.getElem?_set, List.getElem?_set, hlen]
            simp [hget]

theorem loopGo_stepOf_valid_mem (d : Nat → Option Cell)
    (v : Nat → Option Validity) :
    ∀ fuel i c j, i ≤ j → j < i + fuel →
      (loopGo (stepOf d v) fuel i c).valid[j]? = (stepOf d v j c).valid[j]? := by
  intro fuel
  induction fuel with
  | zero => intro i c j h1 h2; omega
  | succ n ih =>
      intro i c j h1 h2
      rcases Nat.eq_or_lt_of_le h1 with heq | hlt
      · subst heq
        rw [loopGo, loopGo_stepOf_valid_lt d v n (i + 1) _ i (Nat.lt_succ_self i)]
      · rw [loopGo, ih (i + 1) _ j hlt (by omega)]
        show (stepOf d v j (stepOf d v i c)).valid[j]? = (stepOf d v j c).valid[j]?
        have hne : i ≠ j := Nat.ne_of_lt hlt
        have hlen : (stepOf d v i c).valid.length = c.valid.length :=
          stepOf_valid_length d v i c
        have hget : (stepOf d v i c).valid[j]? = c.valid[j]? :=
          stepOf_valid_get_ne d v i c j hne
        generalize stepOf d v i c = c1 at hlen hget
        cases hd : v j with
        | none => simp only [stepOf, hd]; exact hget
        | some x =>
            simp only [stepOf, hd]
            rw [List.getElem?_set, List.getElem?_set, hlen]
            simp [hget]

theorem loopGo_stepOf_data_write (d : Nat → Option Cell)
    (v : Nat → Option Validity) (fuel i : Nat) (c : Column) (j : Nat)
    (x : Cell) (hd : d j = some x) (h1 : i ≤ j) (h2 : j < i + fuel)
    (hj : j < c.data.length) :
    (loopGo (stepOf d v) fuel i c).data[j]? = some x := by
  rw [loopGo_stepOf_data_mem d v fuel i c j h1 h2]
  simp only [stepOf, hd]
  exact List.getElem?_set_self hj

theorem loopGo_stepOf_data_skip (d : Nat → Option Cell)
    (v : Nat → Option Validity) (fuel i : Nat) (c : Column) (j : Nat)
    (hd : d j = none) (h1 : i ≤ j) (h2 : j < i + fuel) :
    (loopGo (stepOf d v) fuel i c).data[j]? = c.data[j]? := by
  rw [loopGo_stepOf_data_mem d v fuel i c j h1 h2]
  simp only [stepOf, hd]

theorem loopGo_stepOf_valid_write (d : Nat → Option Cell)
    (v : Nat → Option Validity) (fuel i : Nat) (c : Column) (j : Nat)
    (w : Validity) (hv : v j = some w) (h1 : i ≤ j) (h2 : j < i + fuel)
    (hj : j < c.valid.length) :
    (loopGo (stepOf d v) fuel i c).valid[j]? = some w := by
  rw [loopGo_stepOf_valid_mem d v fuel i c j h1 h2]
  simp only [stepOf, hv]
  exact List.getElem?_set_self hj

theorem loopGo_stepOf_valid_skip (d : Nat → Option Cell)
    (v : Nat → Option Validity) (fuel i : Nat) (c : Column) (j : Nat)
    (hv : v j = none) (h1 : i ≤ j) (h2 : j < i + fuel) :
    (loopGo (stepOf d v) fuel i c).valid[j]? = c.valid[j]? := by
  rw [loopGo_stepOf_valid_mem d v fuel i c j h1 h2]
  simp only [stepOf, hv]

theorem fillNumericGo_succ (L : Loader) (arr : RawArray) (cidx : Nat)
    (npDtype : Dtype) (isUpdate : Bool) (fuel i : Nat) (col : Column)
    (type : Dtype) :
    fillNumericGo L arr cidx npDtype isUpdate (fuel + 1) i col type =
      fillNumericGo L arr cidx npDtype isUpdate fuel (i + 1)
        (numericStep arr npDtype isUpdate i col type).1
        (numericStep arr npDtype isUpdate i col type).2 := by
  by_cases h : npyIsnanF (arr.f64 i)
  · simp only [fillNumericGo, numericStep, h, if_true]
  · cases type <;>
      simp only [fillNumericGo, numericStep, h, npyIsnanInt,
        Bool.false_eq_true, if_false] <;>
      (try split) <;> (try split) <;> rfl

theorem promoteData_length (t : Dtype) :
    ∀ k (l : List Cell), (promoteData t k l).length = l.length := by
  intro k
  induction k with
  | zero => intro l; rfl
  | succ n ih =>
      intro l
      cases l with
      | nil => rfl
      | cons v tl => simp [promoteData, ih]

theorem promoteData_get_lt (t : Dtype) :
    ∀ k (l : List Cell) j, j < k →
      (promoteData t k l)[j]? = (l[j]?).map (promoteCell t) := by
  intro k
  induction k with
  | zero => intro l j hj; omega
  | succ n ih =>
      intro l j hj
      cases l with
      | nil => simp [promoteData]
      | cons v tl =>
          cases j with
          | zero => simp [promoteData]
          | succ m => simpa [promoteData] using ih tl m (by omega)

theorem promoteData_get_ge (t : Dtype) :
    ∀ k (l : List Cell) j, k ≤ j → (promoteData t k l)[j]? = l[j]? := by
  intro k
  induction k with
  | zero => intro l j _; rfl
  | succ n ih =>
      intro l j hj
      cases l with
      | nil => simp [promoteData]
      | cons v tl =>
          cases j with
          | zero => omega
          | succ m => simpa [promoteData] using ih tl m (by omega)

theorem numericStep_data_length (arr : RawArray) (npDtype : Dtype)
    (isUpdate : Bool) (i : Nat) (col : Column) (type : Dtype) :
    ((numericStep arr npDtype isUpdate i col type).1).data.length
      = col.data.length := by
  unfold numericStep
  by_cases h : npyIsnanF (arr.f64 i) <;>
    cases type <;>
      simp [h, Column.setNth, Column.unset, Column.clear, promoteColumn,
        promoteData_length] <;>
      (try split) <;> (try split) <;>
      simp [Column.setNth, promoteColumn, promoteData_length]

theorem numericStep_valid_length (arr : RawArray) (npDtype : Dtype)
    (isUpdate : Bool) (i : Nat) (col : Column) (type : Dtype) :
    ((numericStep arr npDtype isUpdate i col type).1).valid.length
      = col.valid.length := by
  unfold numericStep
  by_cases h : npyIsnanF (arr.f64 i) <;>
    cases type <;>
      simp [h, Column.setNth, Column.unset, Column.clear, promoteColumn] <;>
      (try split) <;> (try split) <;>
      simp [Column.setNth, promoteColumn]

theorem numericStep_valid_ne (arr : RawArray) (npDtype : Dtype)
    (isUpdate : Bool) (i : Nat) (col : Column) (type : Dtype) (j : Nat)
    (hne : j ≠ i) :
    ((numericStep arr npDtype isUpdate i col type).1).valid[j]?
      = col.valid[j]? := by
  have hne' : i ≠ j := fun h => hne h.symm
  unfold numericStep
  by_cases h : npyIsnanF (arr.f64 i) <;>
    cases type <;>
      simp [h, Column.setNth, Column.unset, Column.clear, promoteColumn,
        List.getElem?_set_ne hne'] <;>
      (try split) <;> (try split) <;>
      simp [Column.setNth, promoteColumn, List.getElem?_set_ne hne']

theorem numericStep_valid_self (arr : RawArray) (npDtype : Dtype)
    (isUpdate : Bool) (i : Nat) (col : Column) (type : Dtype)
    (hnum : isNumericDtype type = true) (hi : i < col.valid.length) :
    ((numericStep arr npDtype isUpdate i col type).1).valid[i]?
      = some (if npyIsnanF (arr.f64 i) then absentMark isUpdate
          else .present) := by
  unfold numericStep
  by_cases h : npyIsnanF (arr.f64 i)
  · cases isUpdate <;>
      simp [h, Column.unset, Column.clear, absentMark,
        List.getElem?_set_self hi]
  · cases type <;> simp_all [isNumericDtype] <;>
      (try split) <;> (try split) <;>
      simp [Column.setNth, promoteColumn, List.getElem?_set_self, hi]

theorem numericStep_snd (arr : RawArray) (npDtype : Dtype)
    (isUpdate : Bool) (i : Nat) (col : Column) (type : Dtype) :
    (numericStep arr npDtype isUpdate i col type).2 = type ∨
      (numericStep arr npDtype isUpdate i col type).2 = .float64 := by
  unfold numericStep
  by_cases h : npyIsnanF (arr.f64 i)
  · simp [h]
  · cases type <;> simp [h] <;> (try split) <;> (try split) <;> simp

theorem numericStep_type_numeric (arr : RawArray) (npDtype : Dtype)
    (isUpdate : Bool) (i : Nat) (col : Column) (type : Dtype)
    (hnum : isNumericDtype type = true) :
    isNumericDtype (numericStep arr npDtype isUpdate i col type).2 = true := by
  cases numericStep_snd arr npDtype isUpdate i col type with
  | inl h => rw [h]; exact hnum
  | inr h => rw [h]; rfl

theorem numericStep_eq_stepOf (arr : RawArray) (npDtype : Dtype)
    (isUpdate : Bool) (type : Dtype) (h : type ≠ .int32) (i : Nat)
    (col : Column) :
    numericStep arr npDtype isUpdate i col type =
      (stepOf (numDataOut arr npDtype type)
        (numValidOut arr npDtype isUpdate type) i col, type) := by
  by_cases hn : npyIsnanF (arr.f64 i)
  · cases isUpdate <;>
      simp [numericStep, stepOf, numDataOut, numValidOut, hn,
        Column.unset, Column.clear, absentMark]
  · cases type <;> (try exact absurd rfl h) <;>
      simp [numericStep, stepOf, numDataOut, numValidOut, numericWrite, hn,
        Column.setNth] <;>
      split <;> simp [Column.setNth]

theorem fillNumericGo_eq_loop (L : Loader) (arr : RawArray) (cidx : Nat)
    (npDtype : Dtype) (isUpdate : Bool) (type : Dtype)
    (h : type ≠ .int32) :
    ∀ fuel i col,
      fillNumericGo L arr cidx npDtype isUpdate fuel i col type =
        loopGo (stepOf (numDataOut arr npDtype type)
          (numValidOut arr npDtype isUpdate type)) fuel i col := by
  intro fuel
  induction fuel with
  | zero => intro i col; rfl
  | succ n ih =>
      intro i col
      rw [fillNumericGo_succ,
        numericStep_eq_stepOf arr npDtype isUpdate type h i col]
      show fillNumericGo L arr cidx npDtype isUpdate n (i + 1) _ type = _
      rw [ih, loopGo]

theorem fillStringGo_eq_loop (L : Loader) (cidx : Nat) (isUpdate : Bool) :
    ∀ fuel i col,
      fillStringGo L cidx isUpdate fuel i col =
        loopGo (stepOf (strDataOut L cidx) (strValidOut L cidx isUpdate))
          fuel i col := by
  intro fuel
  induction fuel with
  | zero => intro i col; rfl
  | succ n ih =>
      intro i col
      cases hm : L.marshalStr cidx i with
      | none =>
          have hcol : (if isUpdate then col.unset i else col.clear i) =
              stepOf (strDataOut L cidx) (strValidOut L cidx isUpdate) i col := by
            cases isUpdate <;>
              simp [stepOf, strDataOut, strValidOut, hm, Column.unset,
                Column.clear, absentMark]
          simp only [fillStringGo, hm, loopGo, ih, hcol]
      | some s =>
          have hcol : col.setNth i (.s s) =
              stepOf (strDataOut L cidx) (strValidOut L cidx isUpdate) i col := by
            simp [stepOf, strDataOut, strValidOut, hm, Column.setNth]
          simp only [fillStringGo, hm, loopGo, ih, hcol]

theorem fillBoolGo_eq_loop (L : Loader) (cidx : Nat) (isUpdate : Bool) :
    ∀ fuel i col,
      fillBoolGo L cidx isUpdate fuel i col =
        loopGo (stepOf (boolDataOut L cidx) (boolValidOut L cidx isUpdate))
          fuel i col := by
  intro fuel
  induction fuel with
  | zero => intro i col; rfl
  | succ n ih =>
      intro i col
      cases hm : L.marshalBool cidx i with
      | none =>
          have hcol : (if isUpdate then col.unset i else col.clear i) =
              stepOf (boolDataOut L cidx) (boolValidOut L cidx isUpdate) i col := by
            cases isUpdate <;>
              simp [stepOf, boolDataOut, boolValidOut, hm, Column.unset,
                Column.clear, absentMark]
          simp only [fillBoolGo, hm, loopGo, ih, hcol]
      | some v =>
          have hcol : col.setNth i (.b v) =
              stepOf (boolDataOut L cidx) (boolValidOut L cidx isUpdate) i col := by
            simp [stepOf, boolDataOut, boolValidOut, hm, Column.setNth]
          simp only [fillBoolGo, hm, loopGo, ih, hcol]

theorem fillDateGo_eq_loop (L : Loader) (cidx : Nat) (isUpdate : Bool) :
    ∀ fuel i col,
      fillDateGo L cidx isUpdate fuel i col =
        loopGo (stepOf (dateDataOut L cidx) (dateValidOut L cidx isUpdate))
          fuel i col := by
  intro fuel
  induction fuel with
  | zero => intro i col; rfl
  | succ n ih =>
      intro i col
      cases hm : L.marshalDate cidx i with
      | none =>
          have hcol : (if isUpdate then col.unset i else col.clear i) =
              stepOf (dateDataOut L cidx) (dateValidOut L cidx isUpdate) i col := by
            cases isUpdate <;>
              simp [stepOf, dateDataOut, dateValidOut, hm, Column.unset,
                Column.clear, absentMark]
          simp only [fillDateGo, hm, loopGo, ih, hcol]
      | some p =>
          have hcol : col.setNth i (.d p.1 p.2.1 p.2.2) =
              stepOf (dateDataOut L cidx) (dateValidOut L cidx isUpdate) i col := by
            simp [stepOf, dateDataOut, dateValidOut, hm, Column.setNth]
          obtain ⟨y, m, d⟩ := p
          simp only [fillDateGo, hm, loopGo, ih]
          rw [← hcol]

theorem fillDatetimeGo_eq_loop (arr : RawArray) (isUpdate : Bool) :
    ∀ fuel i col,
      fillDatetimeGo arr isUpdate fuel i col =
        loopGo (stepOf (dtDataOut arr) dtValidOut) fuel i col := by
  intro fuel
  induction fuel with
  | zero => intro i col; rfl
  | succ n ih =>
      intro i col
      have hcol : col.setNth i (.i (wrapI64 (arr.i64 i * 1000))) =
          stepOf (dtDataOut arr) dtValidOut i col := by
        simp [stepOf, dtDataOut, dtValidOut, Column.setNth]
      simp only [fillDatetimeGo, npyIsnanInt, Bool.false_eq_true, if_false,
        loopGo, ih, hcol]

/-! ## Row-level characterizations of the iterative fills -/

theorem fill_string_iter_dtype (L : Loader) (cidx : Nat) (isUpdate : Bool)
    (col : Column) :
    (fill_string_iter L cidx isUpdate col).dtype = col.dtype := by
  unfold fill_string_iter
  rw [fillStringGo_eq_loop]
  exact loopGo_stepOf_dtype _ _ _ _ _

theorem fill_string_iter_valid (L : Loader) (cidx : Nat) (isUpdate : Bool)
    (col : Column) (j : Nat) (hwf : col.wf) (hj : j < col.size) :
    (fill_string_iter L cidx isUpdate col).valid[j]? =
      some (match L.marshalStr cidx j with
        | none => absentMark isUpdate
        | some _ => .present) := by
  unfold fill_string_iter
  rw [fillStringGo_eq_loop]
  refine loopGo_stepOf_valid_write _ _ _ _ _ _ _ ?_ (Nat.zero_le j)
    (by simpa using hj) (by rw [hwf]; exact hj)
  cases hm : L.marshalStr cidx j <;> simp [strValidOut, hm]

theorem fill_string_iter_data (L : Loader) (cidx : Nat) (isUpdate : Bool)
    (col : Column) (j : Nat) (hj : j < col.size) :
    (fill_string_iter L cidx isUpdate col).data[j]? =
      match L.marshalStr cidx j with
      | none => col.data[j]?
      | some s => some (.s s) := by
  unfold fill_string_iter
  rw [fillStringGo_eq_loop]
  cases hm : L.marshalStr cidx j with
  | none =>
      simpa using loopGo_stepOf_data_skip _ _ _ _ _ j
        (by simp [strDataOut, hm]) (Nat.zero_le j) (by simpa using hj)
  | some s =>
      simpa using loopGo_stepOf_data_write _ _ _ _ _ j (.s s)
        (by simp [strDataOut, hm]) (Nat.zero_le j) (by simpa using hj) hj

theorem fill_bool_iter_valid (L : Loader) (cidx : Nat) (isUpdate : Bool)
    (col : Column) (j : Nat) (hwf : col.wf) (hj : j < col.size) :
    (fill_bool_iter L cidx isUpdate col).valid[j]? =
      some (match L.marshalBool cidx j with
        | none => absentMark isUpdate
        | some _ => .present) := by
  unfold fill_bool_iter
  rw [fillBoolGo_eq_loop]
  refine loopGo_stepOf_valid_write _ _ _ _ _ _ _ ?_ (Nat.zero_le j)
    (by simpa using hj) (by rw [hwf]; exact hj)
  cases hm : L.marshalBool cidx j <;> simp [boolValidOut, hm]

theorem fill_bool_iter_data (L : Loader) (cidx : Nat) (isUpdate : Bool)
    (col : Column) (j : Nat) (hj : j < col.size) :
    (fill_bool_iter L cidx isUpdate col).data[j]? =
      match L.marshalBool cidx j with
      | none => col.data[j]?
      | some v => some (.b v) := by
  unfold fill_bool_iter
  rw [fillBoolGo_eq_loop]
  cases hm : L.marshalBool cidx j with
  | none =>
      simpa using loopGo_stepOf_data_skip _ _ _ _ _ j
        (by simp [boolDataOut, hm]) (Nat.zero_le j) (by simpa using hj)
  | some v =>
      simpa using loopGo_stepOf_data_write _ _ _ _ _ j (.b v)
        (by simp [boolDataOut, hm]) (Nat.zero_le j) (by simpa using hj) hj

theorem fill_date_iter_valid (L : Loader) (cidx : Nat) (isUpdate : Bool)
    (col : Column) (j : Nat) (hwf : col.wf) (hj : j < col.size) :
    (fill_date_iter L cidx isUpdate col).valid[j]? =
      some (match L.marshalDate cidx j with
        | none => absentMark isUpdate
        | some _ => .present) := by
  unfold fill_date_iter
  rw [fillDateGo_eq_loop]
  refine loopGo_stepOf_valid_write _ _ _ _ _ _ _ ?_ (Nat.zero_le j)
    (by simpa using hj) (by rw [hwf]; exact hj)
  cases hm : L.marshalDate cidx j <;> simp [dateValidOut, hm]

theorem fill_date_iter_data (L : Loader) (cidx : Nat) (isUpdate : Bool)
    (col : Column) (j : Nat) (hj : j < col.size) :
    (fill_date_iter L cidx isUpdate col).data[j]? =
      match L.marshalDate cidx j with
      | none => col.data[j]?
      | some p => some (.d p.1 p.2.1 p.2.2) := by
  unfold fill_date_iter
  rw [fillDateGo_eq_loop]
  cases hm : L.marshalDate cidx j with
  | none =>
      simpa using loopGo_stepOf_data_skip _ _ _ _ _ j
        (by simp [dateDataOut, hm]) (Nat.zero_le j) (by simpa using hj)
  | some p =>
      simpa using loopGo_stepOf_data_write _ _ _ _ _ j (.d p.1 p.2.1 p.2.2)
        (by simp [dateDataOut, hm]) (Nat.zero_le j) (by simpa using hj) hj

theorem fill_datetime_iter_valid (arr : RawArray) (isUpdate : Bool)
    (col : Column) (j : Nat) (hwf : col.wf) (hj : j < col.size) :
    (fill_datetime_iter arr isUpdate col).valid[j]? = some .present := by
  unfold fill_datetime_iter
  rw [fillDatetimeGo_eq_loop]
  exact loopGo_stepOf_valid_write _ _ _ _ _ _ _ rfl (Nat.zero_le j)
    (by simpa using hj) (by rw [hwf]; exact hj)

theorem fill_datetime_iter_data (arr : RawArray) (isUpdate : Bool)
    (col : Column) (j : Nat) (hj : j < col.size) :
    (fill_datetime_iter arr isUpdate col).data[j]? =
      some (.i (wrapI64 (arr.i64 j * 1000))) := by
  unfold fill_datetime_iter
  rw [fillDatetimeGo_eq_loop]
  exact loopGo_stepOf_data_write _ _ _ _ _ j _ rfl (Nat.zero_le j)
    (by simpa using hj) hj

theorem fill_datetime_iter_dtype (arr : RawArray) (isUpdate : Bool)
    (col : Column) :
    (fill_datetime_iter arr isUpdate col).dtype = col.dtype := by
  unfold fill_datetime_iter
  rw [fillDatetimeGo_eq_loop]
  exact loopGo_stepOf_dtype _ _ _ _ _

theorem fillNumericGo_valid_frame (L : Loader) (arr : RawArray) (cidx : Nat)
    (npDtype : Dtype) (isUpdate : Bool) :
    ∀ fuel i (col : Column) type j, j < i →
      (fillNumericGo L arr cidx npDtype isUpdate fuel i col type).valid[j]? =
        col.valid[j]? := by
  intro fuel
  induction fuel with
  | zero => intro i col type j _; rfl
  | succ n ih =>
      intro i col type j hj
      rw [fillNumericGo_succ, ih (i + 1) _ _ j (by omega)]
      exact numericStep_valid_ne arr npDtype isUpdate i col type j
        (Nat.ne_of_lt hj)

theorem fillNumericGo_valid_char (L : Loader) (arr : RawArray) (cidx : Nat)
    (npDtype : Dtype) (isUpdate : Bool) :
    ∀ fuel i (col : Column) type j, isNumericDtype type = true → col.wf →
      i ≤ j → j < i + fuel → j < col.data.length →
      (fillNumericGo L arr cidx npDtype isUpdate fuel i col type).valid[j]? =
        some (if npyIsnanF (arr.f64 j) then absentMark isUpdate
          else .present) := by
  intro fuel
  induction fuel with
  | zero => intro i col type j _ _ h1 h2 _; omega
  | succ n ih =>
      intro i col type j hnum hwf h1 h2 hlen
      rcases Nat.eq_or_lt_of_le h1 with heq | hlt
      · subst heq
        rw [fillNumericGo_succ,
          fillNumericGo_valid_frame L arr cidx npDtype isUpdate n (i + 1) _ _
            i (Nat.lt_succ_self i)]
        exact numericStep_valid_self arr npDtype isUpdate i col type hnum
          (by rw [hwf]; exact hlen)
      · rw [fillNumericGo_succ]
        refine ih (i + 1) _ _ j
          (numericStep_type_numeric arr npDtype isUpdate i col type hnum)
          ?_ hlt (by omega) ?_
        · show ((numericStep arr npDtype isUpdate i col type).1).valid.length
              = ((numericStep arr npDtype isUpdate i col type).1).data.length
          rw [numericStep_valid_length, numericStep_data_length, hwf]
        · rw [numericStep_data_length]; exact hlen

/-- Validity of every row after `fill_numeric_iter` on a numeric
destination dtype (including int32 with its possible promotion): the row
is marked absent by the `is_update`-selected transition exactly when its
double view is NaN, and written (hence present) otherwise. -/
theorem fill_numeric_iter_valid (L : Loader) (arr : RawArray) (cidx : Nat)
    (npDtype : Dtype) (isUpdate : Bool) (type : Dtype) (col : Column)
    (j : Nat) (hnum : isNumericDtype type = true) (hwf : col.wf)
    (hj : j < col.size) :
    (fill_numeric_iter L arr cidx npDtype isUpdate type col).valid[j]? =
      some (if npyIsnanF (arr.f64 j) then absentMark isUpdate
        else .present) := by
  unfold fill_numeric_iter
  exact fillNumericGo_valid_char L arr cidx npDtype isUpdate col.size 0 col
    type j hnum hwf (Nat.zero_le j) (by simpa using hj) hj

theorem fill_numeric_iter_dtype (L : Loader) (arr : RawArray) (cidx : Nat)
    (npDtype : Dtype) (isUpdate : Bool) (type : Dtype) (col : Column)
    (h : type ≠ .int32) :
    (fill_numeric_iter L arr cidx npDtype isUpdate type col).dtype =
      col.dtype := by
  unfold fill_numeric_iter
  rw [fillNumericGo_eq_loop L arr cidx npDtype isUpdate type h]
  exact loopGo_stepOf_dtype _ _ _ _ _

theorem fill_numeric_iter_data_write (L : Loader) (arr : RawArray)
    (cidx : Nat) (npDtype : Dtype) (isUpdate : Bool) (type : Dtype)
    (col : Column) (j : Nat) (v : Cell) (h : type ≠ .int32)
    (hnan : npyIsnanF (arr.f64 j) = false)
    (hv : numericWrite arr npDtype type j = some v) (hj : j < col.size) :
    (fill_numeric_iter L arr cidx npDtype isUpdate type col).data[j]? =
      some v := by
  unfold fill_numeric_iter
  rw [fillNumericGo_eq_loop L arr cidx npDtype isUpdate type h]
  exact loopGo_stepOf_data_write _ _ _ _ _ j v
    (by simp [numDataOut, hnan, hv]) (Nat.zero_le j) (by simpa using hj) hj

theorem fill_numeric_iter_data_skip (L : Loader) (arr : RawArray)
    (cidx : Nat) (npDtype : Dtype) (isUpdate : Bool) (type : Dtype)
    (col : Column) (j : Nat) (h : type ≠ .int32)
    (hnan : npyIsnanF (arr.f64 j) = true) (hj : j < col.size) :
    (fill_numeric_iter L arr cidx npDtype isUpdate type col).data[j]? =
      col.data[j]? := by
  unfold fill_numeric_iter
  rw [fillNumericGo_eq_loop L arr cidx npDtype isUpdate type h]
  exact loopGo_stepOf_data_skip _ _ _ _ _ j
    (by simp [numDataOut, hnan]) (Nat.zero_le j) (by simpa using hj)

theorem setNth_data_self (c : Column) (i : Nat) (v : Cell)
    (h : i < c.data.length) : (c.setNth i v).data[i]? = some v :=
  List.getElem?_set_self h

theorem setNth_data_ne (c : Column) (i : Nat) (v : Cell) (j : Nat)
    (h : i ≠ j) : (c.setNth i v).data[j]? = c.data[j]? :=
  List.getElem?_set_ne h

theorem setNth_valid_self (c : Column) (i : Nat) (v : Cell)
    (h : i < c.valid.length) : (c.setNth i v).valid[i]? = some .present :=
  List.getElem?_set_self h

theorem setNth_valid_ne (c : Column) (i : Nat) (v : Cell) (j : Nat)
    (h : i ≠ j) : (c.setNth i v).valid[j]? = c.valid[j]? :=
  List.getElem?_set_ne h

theorem fillNumericGo_int32_split (L : Loader) (arr : RawArray) (cidx : Nat)
    (npDtype : Dtype) (isUpdate : Bool) :
    ∀ a b i (col : Column),
      (∀ j, i ≤ j → j < i + a → outOfRange32 (arr.f64 j) = false) →
      fillNumericGo L arr cidx npDtype isUpdate (a + b) i col .int32 =
        fillNumericGo L arr cidx npDtype isUpdate b (i + a)
          (loopGo (stepOf (i32DataOut arr npDtype) (i32ValidOut arr isUpdate))
            a i col) .int32 := by
  intro a
  induction a with
  | zero => intro b i col _; rw [Nat.zero_add, Nat.add_zero]; rfl
  | succ n ih =>
      intro b i col h
      have hstep : numericStep arr npDtype isUpdate i col .int32 =
          (stepOf (i32DataOut arr npDtype) (i32ValidOut arr isUpdate) i col,
            .int32) := by
        by_cases hn : npyIsnanF (arr.f64 i)
        · cases isUpdate <;>
            simp [numericStep, stepOf, i32DataOut, i32ValidOut, hn,
              Column.unset, Column.clear, absentMark]
        · have hor : outOfRange32 (arr.f64 i) = false := h i le_rfl (by omega)
          by_cases hd : npDtype = .int64 <;>
            simp [numericStep, stepOf, i32DataOut, i32ValidOut, hn, hor, hd,
              Column.setNth]
      rw [show n + 1 + b = (n + b) + 1 from by omega, fillNumericGo_succ,
        hstep]
      show fillNumericGo L arr cidx npDtype isUpdate (n + b) (i + 1) _ .int32
        = _
      rw [ih b (i + 1) _ (fun j hj1 hj2 => h j (by omega) (by omega)),
        show i + 1 + n = i + (n + 1) from by omega]
      rfl

theorem fillNumericGo_int32_trigger (L : Loader) (arr : RawArray)
    (cidx : Nat) (npDtype : Dtype) (isUpdate : Bool) (b k : Nat)
    (col : Column) (htrig : outOfRange32 (arr.f64 k) = true) :
    fillNumericGo L arr cidx npDtype isUpdate (b + 1) k col .int32 =
      fillNumericGo L arr cidx npDtype isUpdate b (k + 1)
        ((promoteColumn col .float64 k true).setNth k (.f (arr.f64 k)))
        .float64 := by
  have hnan : npyIsnanF (arr.f64 k) = false := by
    cases hf : arr.f64 k with
    | nan => rw [hf] at htrig; simp [outOfRange32, F64.gtQ, F64.ltQ] at htrig
    | val q => rfl
  rw [fillNumericGo_succ]
  simp [numericStep, hnan, htrig]

theorem promoteColumn_copy_data_length (c : Column) (t : Dtype) (k : Nat) :
    (promoteColumn c t k true).data.length = c.data.length := by
  simp [promoteColumn, promoteData_length]

/-- C1: on the iterative numeric path with a 32-bit-integer destination,
the first row whose source value read as a 64-bit float lies outside
`[-2147483648, 2147483647]` triggers promotion of the column to 64-bit
float at that row; the triggering row and all subsequent written rows hold
float cells, and rows written before the trigger are re-encoded as
numerically equal floats. -/
theorem claim_C1 (L : Loader) (arr : RawArray) (cidx : Nat)
    (npDtype : Dtype) (isUpdate : Bool) (col : Column) (k : Nat)
    (hwf : col.wf) (hk : k < col.size)
    (hfirst : ∀ j, j < k → outOfRange32 (arr.f64 j) = false)
    (htrig : outOfRange32 (arr.f64 k) = true) :
    (fill_numeric_iter L arr cidx npDtype isUpdate .int32 col).dtype
        = .float64 ∧
    (fill_numeric_iter L arr cidx npDtype isUpdate .int32 col).data[k]?
        = some (.f (arr.f64 k)) ∧
    (fill_numeric_iter L arr cidx npDtype isUpdate .int32 col).valid[k]?
        = some .present ∧
    (∀ j, k < j → j < col.size → npyIsnanF (arr.f64 j) = false →
      ∃ x, (fill_numeric_iter L arr cidx npDtype isUpdate .int32 col).data[j]?
        = some (.f x)) ∧
    (∀ j, j < k → npyIsnanF (arr.f64 j) = false →
      (fill_numeric_iter L arr cidx npDtype isUpdate .int32 col).data[j]?
        = some (.f (.val (if npDtype = .int64 then wrapI32 (arr.i64 j)
            else arr.i32 j)))) := by
  have hne : Dtype.float64 ≠ Dtype.int32 := by decide
  have key : fill_numeric_iter L arr cidx npDtype isUpdate .int32 col =
      loopGo (stepOf (numDataOut arr npDtype .float64)
          (numValidOut arr npDtype isUpdate .float64))
        (col.size - k - 1) (k + 1)
        ((promoteColumn
            (loopGo (stepOf (i32DataOut arr npDtype) (i32ValidOut arr isUpdate))
              k 0 col) .float64 k true).setNth k (.f (arr.f64 k))) := by
    unfold fill_numeric_iter
    rw [show col.size = k + ((col.size - k - 1) + 1) from by omega,
      fillNumericGo_int32_split L arr cidx npDtype isUpdate k
        ((col.size - k - 1) + 1) 0 col (fun j _ h2 => hfirst j (by omega)),
      Nat.zero_add,
      fillNumericGo_int32_trigger L arr cidx npDtype isUpdate
        (col.size - k - 1) k _ htrig,
      fillNumericGo_eq_loop L arr cidx npDtype isUpdate .float64 hne,
      show k + ((col.size - k - 1) + 1) - k - 1 = col.size - k - 1 from by
        omega]
  have hlenPre : (loopGo (stepOf (i32DataOut arr npDtype)
      (i32ValidOut arr isUpdate)) k 0 col).data.length = col.data.length :=
    loopGo_stepOf_data_length _ _ _ _ _
  have hvlenPre : (loopGo (stepOf (i32DataOut arr npDtype)
      (i32ValidOut arr isUpdate)) k 0 col).valid.length = col.valid.length :=
    loopGo_stepOf_valid_length _ _ _ _ _
  have hlenP : (promoteColumn (loopGo (stepOf (i32DataOut arr npDtype)
      (i32ValidOut arr isUpdate)) k 0 col) .float64 k true).data.length
        = col.data.length := by
    rw [promoteColumn_copy_data_length, hlenPre]
  have hlenMid : ((promoteColumn (loopGo (stepOf (i32DataOut arr npDtype)
      (i32ValidOut arr isUpdate)) k 0 col) .float64 k true).setNth k
        (.f (arr.f64 k))).data.length = col.data.length := by
    simp [Column.setNth, hlenP]
  refine ⟨?_, ?_, ?_, ?_, ?_⟩
  · rw [key, loopGo_stepOf_dtype]
    rfl
  · rw [key, loopGo_stepOf_data_lt _ _ _ _ _ k (Nat.lt_succ_self k)]
    exact setNth_data_self _ _ _ (by rw [hlenP]; exact hk)
  · rw [key, loopGo_stepOf_valid_lt _ _ _ _ _ k (Nat.lt_succ_self k)]
    refine setNth_valid_self _ _ _ ?_
    show k < (loopGo (stepOf (i32DataOut arr npDtype)
      (i32ValidOut arr isUpdate)) k 0 col).valid.length
    rw [hvlenPre, hwf]
    exact hk
  · intro j hj1 hj2 hnan
    refine ⟨if npDtype = .int64 then f64OfInt (arr.i64 j) else arr.f64 j, ?_⟩
    rw [key]
    refine loopGo_stepOf_data_write _ _ _ _ _ j _ ?_ (by omega) (by omega)
      (by rw [hlenMid]; exact hj2)
    simp [numDataOut, hnan, numericWrite]
  · intro j hj hnan
    rw [key, loopGo_stepOf_data_lt _ _ _ _ _ j (by omega),
      setNth_data_ne _ _ _ _ (by omega)]
    show (promoteColumn (loopGo (stepOf (i32DataOut arr npDtype)
      (i32ValidOut arr isUpdate)) k 0 col) .float64 k true).data[j]? = _
    have hpre : (loopGo (stepOf (i32DataOut arr npDtype)
        (i32ValidOut arr isUpdate)) k 0 col).data[j]? =
        some (.i (if npDtype = .int64 then wrapI32 (arr.i64 j)
          else arr.i32 j)) := by
      refine loopGo_stepOf_data_write _ _ _ _ _ j _ ?_ (Nat.zero_le j)
        (by omega)
        (by show j < col.data.length
            have hk2 : k < col.data.length := hk
            omega)
      simp [i32DataOut, hnan]
    simp only [promoteColumn, if_pos]
    rw [promoteData_get_lt _ _ _ _ hj, hpre]
    simp [promoteCell]

theorem applyMask_data (isUpdate : Bool) :
    ∀ mask (col : Column), (applyMask mask isUpdate col).data = col.data := by
  intro mask
  induction mask with
  | nil => intro col; rfl
  | cons m tl ih =>
      intro col
      show (applyMask tl isUpdate
        (if isUpdate then col.unset m else col.clear m)).data = col.data
      rw [ih]
      cases isUpdate <;> rfl

theorem applyMask_dtype (isUpdate : Bool) :
    ∀ mask (col : Column), (applyMask mask isUpdate col).dtype = col.dtype := by
  intro mask
  induction mask with
  | nil => intro col; rfl
  | cons m tl ih =>
      intro col
      show (applyMask tl isUpdate
        (if isUpdate then col.unset m else col.clear m)).dtype = col.dtype
      rw [ih]
      cases isUpdate <;> rfl

theorem applyMask_valid_length (isUpdate : Bool) :
    ∀ mask (col : Column),
      (applyMask mask isUpdate col).valid.length = col.valid.length := by
  intro mask
  induction mask with
  | nil => intro col; rfl
  | cons m tl ih =>
      intro col
      show (applyMask tl isUpdate
        (if isUpdate then col.unset m else col.clear m)).valid.length = _
      rw [ih]
      cases isUpdate <;> simp [Column.unset, Column.clear]

theorem applyMask_valid_notmem (isUpdate : Bool) :
    ∀ mask (col : Column) j, j ∉ mask →
      (applyMask mask isUpdate col).valid[j]? = col.valid[j]? := by
  intro mask
  induction mask with
  | nil => intro col j _; rfl
  | cons m tl ih =>
      intro col j hj
      have hne : m ≠ j := fun h => hj (h ▸ List.mem_cons_self m tl)
      have htl : j ∉ tl := fun h => hj (List.mem_cons_of_mem m h)
      show (applyMask tl isUpdate
        (if isUpdate then col.unset m else col.clear m)).valid[j]? = _
      rw [ih _ j htl]
      cases isUpdate <;>
        simp [Column.unset, Column.clear, List.getElem?_set_ne hne]

theorem applyMask_valid_mem (isUpdate : Bool) :
    ∀ mask (col : Column) j, j ∈ mask → j < col.valid.length →
      (applyMask mask isUpdate col).valid[j]? =
        some (absentMark isUpdate) := by
  intro mask
  induction mask with
  | nil => intro col j hj _; cases hj
  | cons m tl ih =>
      intro col j hj hlen
      by_cases htl : j ∈ tl
      · refine ih _ j htl ?_
        cases isUpdate <;> simp [Column.unset, Column.clear, hlen]
      · have hjm : j = m := by
          rcases List.mem_cons.mp hj with h | h
          · exact h
          · exact absurd h htl
        subst hjm
        show (applyMask tl isUpdate
          (if isUpdate then col.unset j else col.clear j)).valid[j]? = _
        rw [applyMask_valid_notmem isUpdate tl _ j htl]
        cases isUpdate <;>
          simp [Column.unset, Column.clear, absentMark,
            List.getElem?_set_self hlen]

theorem validRawFill_valid (col : Column) (j : Nat)
    (hj : j < col.valid.length) :
    col.validRawFill.valid[j]? = some .present := by
  simp [Column.validRawFill, List.getElem?_replicate_of_lt hj]

theorem copy_array_fst (arr : RawArray) (dest : Column) (npDtype : Dtype)
    (off : Nat) :
    (copy_array arr dest npDtype off).1 =
      if isNumericDtype npDtype then .succeed else .fail := by
  cases npDtype <;> rfl

theorem fill_column_data_snd (L : Loader) (arr : RawArray) (mask : List Nat)
    (npDtype type : Dtype) (cidx : Nat) (isUpdate : Bool) (col : Column) :
    (fill_column_data L arr mask npDtype type cidx isUpdate col).2 = .iter ↔
      ((npDtype = .int64 ∧ (type = .int32 ∨ type = .float64)) ∨
        isNumericDtype npDtype = false) := by
  unfold fill_column_data
  by_cases hg : npDtype = .int64 ∧ (type = .int32 ∨ type = .float64)
  · simp [hg]
  · rw [if_neg hg]
    rcases hcp : copy_array arr col npDtype 0 with ⟨st, c1⟩
    have hst := copy_array_fst arr col npDtype 0
    rw [hcp] at hst
    cases hn : isNumericDtype npDtype <;> rw [hn] at hst <;> simp at hst <;>
      subst hst <;> simp [hcp, hg, hn]

theorem fill_column_data_mask_indep (L : Loader) (arr : RawArray)
    (m1 m2 : List Nat) (npDtype type : Dtype) (cidx : Nat) (isUpdate : Bool)
    (col : Column)
    (h : (npDtype = .int64 ∧ (type = .int32 ∨ type = .float64)) ∨
      isNumericDtype npDtype = false) :
    fill_column_data L arr m1 npDtype type cidx isUpdate col =
      fill_column_data L arr m2 npDtype type cidx isUpdate col := by
  unfold fill_column_data
  by_cases hg : npDtype = .int64 ∧ (type = .int32 ∨ type = .float64)
  · simp [hg]
  · rw [if_neg hg, if_neg hg]
    have hn : isNumericDtype npDtype = false := h.resolve_left hg
    split
    · rename_i col1 heq
      have hst := copy_array_fst arr col npDtype 0
      rw [heq, hn] at hst
      simp at hst
    · rfl

theorem lookupCol_update_self :
    ∀ (l : List (String × Column)) n c,
      lookupCol (updateCols l n c) n = some c := by
  intro l
  induction l with
  | nil => intro n c; simp [updateCols, lookupCol]
  | cons p tl ih =>
      intro n c
      obtain ⟨m, d⟩ := p
      by_cases h : m = n
      · subst h; simp [updateCols, lookupCol]
      · simp [updateCols, lookupCol, h, ih]

theorem lookupCol_update_ne :
    ∀ (l : List (String × Column)) n c m, n ≠ m →
      lookupCol (updateCols l n c) m = lookupCol l m := by
  intro l
  induction l with
  | nil => intro n c m hnm; simp [updateCols, lookupCol, hnm]
  | cons p tl ih =>
      intro n c m hnm
      obtain ⟨a, d⟩ := p
      by_cases h : a = n
      · subst h
        simp [updateCols, lookupCol, hnm]
      · simp only [updateCols, if_neg h, lookupCol]
        by_cases h2 : a = m
        · simp [h2]
        · simp [h2, ih n c m hnm]

theorem getColumn_setCol_self (t : Table) (n : String) (c : Column) :
    (t.setCol n c).getColumn n = some c :=
  lookupCol_update_self t.cols n c

theorem getColumn_setCol_ne (t : Table) (n : String) (c : Column)
    (m : String) (h : n ≠ m) : (t.setCol n c).getColumn m = t.getColumn m :=
  lookupCol_update_ne t.cols n c m h

theorem setCol_size (t : Table) (n : String) (c : Column) :
    (t.setCol n c).size = t.size := rfl

theorem addColumn_size (t : Table) (n : String) (ty : Dtype) :
    (t.addColumn n ty).size = t.size := rfl

theorem cloneColumn_size (t : Table) (s d : String) (t1 : Table)
    (h : t.cloneColumn s d = some t1) : t1.size = t.size := by
  unfold Table.cloneColumn at h
  split at h
  · cases h
  · injection h with h1
    rw [← h1]
    rfl

theorem cloneColumn_eq (t : Table) (s d : String) (t1 : Table) (c : Column)
    (hc : t.getColumn s = some c) (h : t.cloneColumn s d = some t1) :
    t1 = t.setCol d c := by
  unfold Table.cloneColumn at h
  rw [hc] at h
  injection h with h1
  exact h1.symm

theorem genGo_limit0 (offset : Nat) (fuel ridx : Nat) (pk ok : Column)
    (hfuel : 0 < fuel) : genGo offset 0 fuel ridx pk ok = none := by
  cases fuel with
  | zero => omega
  | succ n => simp [genGo, mod32?]

theorem genGo_some (offset limit : Nat) (hlim : limit ≠ 0) :
    ∀ fuel ridx (pk ok : Column),
      ∃ pk1 ok1, genGo offset limit fuel ridx pk ok = some (pk1, ok1) := by
  intro fuel
  induction fuel with
  | zero => intro ridx pk ok; exact ⟨pk, ok, rfl⟩
  | succ n ih =>
      intro ridx pk ok
      obtain ⟨pk1, ok1, h⟩ := ih (ridx + 1)
        (pk.setNth ridx (.i (wrapI32 ((ridx + offset) % 2 ^ 32 % limit))))
        (ok.setNth ridx (.i (wrapI32 ((ridx + offset) % 2 ^ 32 % limit))))
      refine ⟨pk1, ok1, ?_⟩
      simp only [genGo]
      rw [show mod32? ((ridx + offset) % 2 ^ 32) limit =
        some ((ridx + offset) % 2 ^ 32 % limit) from by simp [mod32?, hlim]]
      exact h

theorem genGo_eq (offset limit : Nat) :
    ∀ fuel ridx (pk ok pk1 ok1 : Column), pk = ok →
      genGo offset limit fuel ridx pk ok = some (pk1, ok1) → pk1 = ok1 := by
  intro fuel
  induction fuel with
  | zero =>
      intro ridx pk ok pk1 ok1 heq h
      simp only [genGo, Option.some.injEq, Prod.mk.injEq] at h
      rw [← h.1, ← h.2, heq]
  | succ n ih =>
      intro ridx pk ok pk1 ok1 heq h
      subst heq
      simp only [genGo] at h
      cases hm : mod32? ((ridx + offset) % 2 ^ 32) limit with
      | none => rw [hm] at h; cases h
      | some v => rw [hm] at h; exact ih (ridx + 1) _ _ pk1 ok1 rfl h

theorem genGo_pk_frame (offset limit : Nat) :
    ∀ fuel ridx (pk ok pk1 ok1 : Column),
      genGo offset limit fuel ridx pk ok = some (pk1, ok1) →
      ∀ j, j < ridx → pk1.data[j]? = pk.data[j]? := by
  intro fuel
  induction fuel with
  | zero =>
      intro ridx pk ok pk1 ok1 h j _
      simp only [genGo, Option.some.injEq, Prod.mk.injEq] at h
      rw [← h.1]
  | succ n ih =>
      intro ridx pk ok pk1 ok1 h j hj
      simp only [genGo] at h
      cases hm : mod32? ((ridx + offset) % 2 ^ 32) limit with
      | none => rw [hm] at h; cases h
      | some v =>
          rw [hm] at h
          rw [ih (ridx + 1) _ _ pk1 ok1 h j (by omega)]
          exact setNth_data_ne _ _ _ _ (Nat.ne_of_gt hj)

theorem genGo_pk_get (offset limit : Nat) (hlim : limit ≠ 0) :
    ∀ fuel ridx (pk ok pk1 ok1 : Column),
      genGo offset limit fuel ridx pk ok = some (pk1, ok1) →
      ∀ j, ridx ≤ j → j < ridx + fuel → j < pk.data.length →
        pk1.data[j]? =
          some (.i (wrapI32 ((j + offset) % 2 ^ 32 % limit))) := by
  intro fuel
  induction fuel with
  | zero => intro ridx pk ok pk1 ok1 _ j h1 h2 _; omega
  | succ n ih =>
      intro ridx pk ok pk1 ok1 h j h1 h2 hlen
      simp only [genGo] at h
      rw [show mod32? ((ridx + offset) % 2 ^ 32) limit =
        some ((ridx + offset) % 2 ^ 32 % limit) from by simp [mod32?, hlim]]
        at h
      rcases Nat.eq_or_lt_of_le h1 with heq | hlt
      · subst heq
        rw [genGo_pk_frame offset limit n (ridx + 1) _ _ pk1 ok1 h ridx
          (Nat.lt_succ_self ridx)]
        exact setNth_data_self _ _ _ hlen
      · refine ih (ridx + 1) _ _ pk1 ok1 h j hlt (by omega) ?_
        simpa [Column.setNth] using hlen

theorem processOne_size (L : Loader) (isUpdate : Bool) (tbl : Table)
    (flag : Bool) (cidx : Nat) (name : String) (ty : Dtype) (t1 : Table)
    (fl : Bool)
    (h : processOne L isUpdate tbl flag cidx name ty = some (t1, fl)) :
    t1.size = tbl.size := by
  unfold processOne at h
  split at h
  · split at h
    · cases h
    · split at h
      · cases h
      · split at h
        · cases h
        · rename_i pk hpk pr pk1 path hfc t2 hclone
          simp only [Option.some.injEq, Prod.mk.injEq] at h
          rw [← h.1]
          rw [cloneColumn_size _ _ _ _ hclone]
          rfl
  · split at h
    · cases h
    · split at h
      · cases h
      · rename_i c hc pr c1 path hfc
        simp only [Option.some.injEq, Prod.mk.injEq] at h
        rw [← h.1]
        rfl

theorem processColumns_size (L : Loader) (isUpdate : Bool) :
    ∀ (schema : List (String × Dtype)) cidx (tbl : Table) flag t1 fl,
      processColumns L isUpdate cidx schema tbl flag = some (t1, fl) →
      t1.size = tbl.size := by
  intro schema
  induction schema with
  | nil =>
      intro cidx tbl flag t1 fl h
      simp only [processColumns, Option.some.injEq, Prod.mk.injEq] at h
      rw [← h.1]
  | cons p rest ih =>
      intro cidx tbl flag t1 fl h
      obtain ⟨name, ty⟩ := p
      simp only [processColumns] at h
      cases hp : processOne L isUpdate tbl flag cidx name ty with
      | none => rw [hp] at h; cases h
      | some r =>
          obtain ⟨t2, fl2⟩ := r
          rw [hp] at h
          rw [ih (cidx + 1) t2 fl2 t1 fl h]
          exact processOne_size L isUpdate tbl flag cidx name ty t2 fl2 hp

theorem processOne_flag (L : Loader) (isUpdate : Bool) (tbl : Table)
    (flag : Bool) (cidx : Nat) (name : String) (ty : Dtype) (t1 : Table)
    (fl : Bool) (hname : name ≠ "__INDEX__")
    (h : processOne L isUpdate tbl flag cidx name ty = some (t1, fl)) :
    fl = flag := by
  unfold processOne at h
  rw [if_neg hname] at h
  split at h
  · cases h
  · split at h
    · cases h
    · simp only [Option.some.injEq, Prod.mk.injEq] at h
      exact h.2.symm

theorem processColumns_flag (L : Loader) (isUpdate : Bool) :
    ∀ (schema : List (String × Dtype)) cidx (tbl : Table) t1 fl,
      (∀ p ∈ schema, p.1 ≠ "__INDEX__") →
      processColumns L isUpdate cidx schema tbl false = some (t1, fl) →
      fl = false := by
  intro schema
  induction schema with
  | nil =>
      intro cidx tbl t1 fl _ h
      simp only [processColumns, Option.some.injEq, Prod.mk.injEq] at h
      exact h.2.symm
  | cons p rest ih =>
      intro cidx tbl t1 fl hp h
      obtain ⟨name, ty⟩ := p
      simp only [processColumns] at h
      cases hpo : processOne L isUpdate tbl false cidx name ty with
      | none => rw [hpo] at h; cases h
      | some r =>
          obtain ⟨t2, fl2⟩ := r
          rw [hpo] at h
          have hname : name ≠ "__INDEX__" :=
            hp (name, ty) (List.mem_cons_self _ _)
          have hfl2 : fl2 = false :=
            processOne_flag L isUpdate tbl false cidx name ty t2 fl2 hname hpo
          subst hfl2
          exact ih (cidx + 1) t2 t1 fl
            (fun q hq => hp q (List.mem_cons_of_mem _ hq)) h

theorem processOne_pkeq (L : Loader) (isUpdate : Bool) (tbl : Table)
    (flag : Bool) (cidx : Nat) (name : String) (ty : Dtype) (t1 : Table)
    (fl : Bool) (hn1 : name ≠ "psp_pkey") (hn2 : name ≠ "psp_okey")
    (h : processOne L isUpdate tbl flag cidx name ty = some (t1, fl))
    (hinv : flag = true → ∃ pk, tbl.getColumn "psp_pkey" = some pk ∧
      tbl.getColumn "psp_okey" = some pk) :
    fl = true → ∃ pk, t1.getColumn "psp_pkey" = some pk ∧
      t1.getColumn "psp_okey" = some pk := by
  unfold processOne at h
  split at h
  · split at h
    · cases h
    · split at h
      · cases h
      · split at h
        · cases h
        · rename_i a1 a2 a3 a4 a5 a6 t2 hclone
          simp only [Option.some.injEq, Prod.mk.injEq] at h
          intro _
          have ht2 :=
            cloneColumn_eq _ _ _ _ _ (getColumn_setCol_self _ _ _) hclone
          refine ⟨a3, ?_, ?_⟩
          · rw [← h.1, ht2,
              getColumn_setCol_ne _ _ _ _ (by decide), getColumn_setCol_self]
          · rw [← h.1, ht2, getColumn_setCol_self]
  · split at h
    · cases h
    · split at h
      · cases h
      · simp only [Option.some.injEq, Prod.mk.injEq] at h
        intro hfl
        obtain ⟨pk, hp1, hp2⟩ := hinv (h.2.trans hfl)
        refine ⟨pk, ?_, ?_⟩
        · rw [← h.1, getColumn_setCol_ne _ _ _ _ hn1]
          exact hp1
        · rw [← h.1, getColumn_setCol_ne _ _ _ _ hn2]
          exact hp2

theorem processColumns_pkeq (L : Loader) (isUpdate : Bool) :
    ∀ (schema : List (String × Dtype)) cidx (tbl : Table) flag t1 fl,
      (∀ p ∈ schema, p.1 ≠ "psp_pkey" ∧ p.1 ≠ "psp_okey") →
      processColumns L isUpdate cidx schema tbl flag = some (t1, fl) →
      (flag = true → ∃ pk, tbl.getColumn "psp_pkey" = some pk ∧
        tbl.getColumn "psp_okey" = some pk) →
      (fl = true → ∃ pk, t1.getColumn "psp_pkey" = some pk ∧
        t1.getColumn "psp_okey" = some pk) := by
  intro schema
  induction schema with
  | nil =>
      intro cidx tbl flag t1 fl _ h hinv
      simp only [processColumns, Option.some.injEq, Prod.mk.injEq] at h
      rw [← h.1, ← h.2]
      exact hinv
  | cons p rest ih =>
      intro cidx tbl flag t1 fl hp h hinv
      obtain ⟨name, ty⟩ := p
      simp only [processColumns] at h
      cases hpo : processOne L isUpdate tbl flag cidx name ty with
      | none => rw [hpo] at h; cases h
      | some r =>
          obtain ⟨t2, fl2⟩ := r
          rw [hpo] at h
          have hpq := processOne_pkeq L isUpdate tbl flag cidx name ty t2 fl2
            (hp (name, ty) (List.mem_cons_self _ _)).1
            (hp (name, ty) (List.mem_cons_self _ _)).2 hpo hinv
          exact ih (cidx + 1) t2 fl2 t1 fl
            (fun q hq => hp q (List.mem_cons_of_mem _ hq)) h hpq

theorem synthesizeIndex_implicit (tbl : Table) (index : String)
    (offset limit : Nat) :
    synthesizeIndex tbl true index offset limit = some tbl := by
  simp [synthesizeIndex]

theorem addColumn_pair_pk (tbl : Table) :
    ((tbl.addColumn "psp_pkey" .int32).addColumn "psp_okey"
        .int32).getColumn "psp_pkey" =
      some ⟨.int32, List.replicate tbl.size (.i 0),
        List.replicate tbl.size .cleared⟩ := by
  unfold Table.addColumn
  rw [getColumn_setCol_ne _ _ _ _ (by decide)]
  exact getColumn_setCol_self _ _ _

theorem addColumn_pair_ok (tbl : Table) :
    ((tbl.addColumn "psp_pkey" .int32).addColumn "psp_okey"
        .int32).getColumn "psp_okey" =
      some ⟨.int32, List.replicate tbl.size (.i 0),
        List.replicate tbl.size .cleared⟩ := by
  unfold Table.addColumn
  exact getColumn_setCol_self _ _ _

theorem synthesizeIndex_generated (tbl : Table) (offset limit : Nat)
    (hlim : limit ≠ 0) :
    ∃ t' pk1, synthesizeIndex tbl false "" offset limit = some t' ∧
      t'.getColumn "psp_pkey" = some pk1 ∧
      t'.getColumn "psp_okey" = some pk1 ∧
      ∀ j, j < tbl.size →
        pk1.data[j]? =
          some (.i (wrapI32 ((j + offset) % 2 ^ 32 % limit))) := by
  obtain ⟨pk1, ok1, hgen⟩ := genGo_some offset limit hlim
    ((tbl.addColumn "psp_pkey" .int32).addColumn "psp_okey" .int32).size 0
    ⟨.int32, List.replicate tbl.size (.i 0),
      List.replicate tbl.size .cleared⟩
    ⟨.int32, List.replicate tbl.size (.i 0),
      List.replicate tbl.size .cleared⟩
  have heq : pk1 = ok1 := genGo_eq offset limit _ 0 _ _ pk1 ok1 rfl hgen
  subst heq
  refine ⟨(((tbl.addColumn "psp_pkey" .int32).addColumn "psp_okey"
      .int32).setCol "psp_pkey" pk1).setCol "psp_okey" pk1, pk1,
    ?_, ?_, ?_, ?_⟩
  · simp only [synthesizeIndex, Bool.false_eq_true, if_false, reduceIte,
      addColumn_pair_pk, addColumn_pair_ok, hgen]
  · rw [getColumn_setCol_ne _ _ _ _ (by decide)]
    exact getColumn_setCol_self _ _ _
  · exact getColumn_setCol_self _ _ _
  · intro j hj
    refine genGo_pk_get offset limit hlim _ 0 _ _ pk1 pk1 hgen j
      (Nat.zero_le j) ?_ ?_
    · simpa using hj
    · simpa using hj

theorem synthesizeIndex_limit0 (tbl : Table) (offset : Nat)
    (hsz : 0 < tbl.size) :
    synthesizeIndex tbl false "" offset 0 = none := by
  have hg0 : genGo offset 0
      ((tbl.addColumn "psp_pkey" .int32).addColumn "psp_okey" .int32).size 0
      ⟨.int32, List.replicate tbl.size (.i 0),
        List.replicate tbl.size .cleared⟩
      ⟨.int32, List.replicate tbl.size (.i 0),
        List.replicate tbl.size .cleared⟩ = none :=
    genGo_limit0 offset _ 0 _ _ (by simpa using hsz)
  simp only [synthesizeIndex, Bool.false_eq_true, if_false, reduceIte,
    addColumn_pair_pk, addColumn_pair_ok, hg0]

theorem synthesizeIndex_clone (tbl : Table) (index : String)
    (offset limit : Nat) (c : Column) (hidx : index ≠ "")
    (hc : tbl.getColumn index = some c) :
    synthesizeIndex tbl false index offset limit =
      some ((tbl.setCol "psp_pkey" c).setCol "psp_okey" c) := by
  have h1 : tbl.cloneColumn index "psp_pkey" =
      some (tbl.setCol "psp_pkey" c) := by
    unfold Table.cloneColumn
    rw [hc]
  have h2 : (tbl.setCol "psp_pkey" c).getColumn index = some c := by
    by_cases hip : "psp_pkey" = index
    · rw [← hip]
      exact getColumn_setCol_self _ _ _
    · rw [getColumn_setCol_ne _ _ _ _ hip]
      exact hc
  have h3 : (tbl.setCol "psp_pkey" c).cloneColumn index "psp_okey" =
      some ((tbl.setCol "psp_pkey" c).setCol "psp_okey" c) := by
    unfold Table.cloneColumn
    rw [h2]
  simp only [synthesizeIndex, Bool.false_eq_true, if_false, if_neg hidx]
  rw [h1]
  exact h3

theorem fill_table_split (L : Loader) (tbl : Table)
    (schema : List (String × Dtype)) (index : String) (offset limit : Nat)
    (isUpdate : Bool) (t' : Table)
    (h : fill_table L tbl schema index offset limit isUpdate = some t') :
    ∃ t1 fl, processColumns L isUpdate 0 schema tbl false = some (t1, fl) ∧
      synthesizeIndex t1 fl index offset limit = some t' := by
  unfold fill_table at h
  cases hpc : processColumns L isUpdate 0 schema tbl false with
  | none => rw [hpc] at h; cases h
  | some r =>
      obtain ⟨t1, fl⟩ := r
      rw [hpc] at h
      exact ⟨t1, fl, rfl, h⟩

theorem synthesizeIndex_pkeq (tbl : Table) (index : String)
    (offset limit : Nat) (t' : Table)
    (h : synthesizeIndex tbl false index offset limit = some t') :
    ∃ pk, t'.getColumn "psp_pkey" = some pk ∧
      t'.getColumn "psp_okey" = some pk := by
  by_cases hidx : index = ""
  · subst hidx
    by_cases hlim : limit = 0
    · subst hlim
      by_cases hsz : 0 < tbl.size
      · rw [synthesizeIndex_limit0 tbl offset hsz] at h
        cases h
      · have hz : ((tbl.addColumn "psp_pkey" .int32).addColumn "psp_okey"
            .int32).size = 0 := by
          show tbl.size = 0
          omega
        have hg : genGo offset 0
            ((tbl.addColumn "psp_pkey" .int32).addColumn "psp_okey"
              .int32).size 0
            ⟨.int32, List.replicate tbl.size (.i 0),
              List.replicate tbl.size .cleared⟩
            ⟨.int32, List.replicate tbl.size (.i 0),
              List.replicate tbl.size .cleared⟩ =
            some (⟨.int32, List.replicate tbl.size (.i 0),
                List.replicate tbl.size .cleared⟩,
              ⟨.int32, List.replicate tbl.size (.i 0),
                List.replicate tbl.size .cleared⟩) := by
          rw [hz]
          rfl
        simp only [synthesizeIndex, Bool.false_eq_true, if_false, reduceIte,
          addColumn_pair_pk, addColumn_pair_ok, hg, Option.some.injEq] at h
        refine ⟨⟨.int32, List.replicate tbl.size (.i 0),
          List.replicate tbl.size .cleared⟩, ?_, ?_⟩
        · rw [← h, getColumn_setCol_ne _ _ _ _ (by decide)]
          exact getColumn_setCol_self _ _ _
        · rw [← h]
          exact getColumn_setCol_self _ _ _
    · obtain ⟨t2, pk1, hsyn, hp, ho, _⟩ :=
        synthesizeIndex_generated tbl offset limit hlim
      rw [hsyn, Option.some.injEq] at h
      rw [← h]
      exact ⟨pk1, hp, ho⟩
  · cases hcl : tbl.getColumn index with
    | none =>
        have hnone : tbl.cloneColumn index "psp_pkey" = none := by
          unfold Table.cloneColumn
          rw [hcl]
        simp only [synthesizeIndex, Bool.false_eq_true, if_false,
          if_neg hidx, hnone] at h
        cases h
    | some c =>
        rw [synthesizeIndex_clone tbl index offset limit c hidx hcl,
          Option.some.injEq] at h
        rw [← h]
        refine ⟨c, ?_, ?_⟩
        · rw [getColumn_setCol_ne _ _ _ _ (by decide)]
          exact getColumn_setCol_self _ _ _
        · exact getColumn_setCol_self _ _ _

/-- C1 witness: a concrete int32 fill (`f64` view `[1, 3e9, 2]`) whose
row 1 overflows, instantiating `claim_C1`. -/
theorem claim_C1_witness :
    colC1.wf ∧ 1 < colC1.size ∧
    (fill_numeric_iter L0 arrC1 0 .float64 false .int32 colC1).dtype
      = .float64 ∧
    (fill_numeric_iter L0 arrC1 0 .float64 false .int32 colC1).data[1]?
      = some (.f (arrC1.f64 1)) ∧
    (fill_numeric_iter L0 arrC1 0 .float64 false .int32 colC1).data[0]?
      = some (.f (.val (arrC1.i32 0))) := by
  have h := claim_C1 L0 arrC1 0 .float64 false colC1 1 rfl (by decide)
    (fun j hj => by
      have hj0 : j = 0 := by omega
      subst hj0
      decide)
    (by decide)
  refine ⟨rfl, by decide, h.1, h.2.1, ?_⟩
  have h5 := h.2.2.2.2 0 (by decide) (by decide)
  simpa using h5

/-- C2 counterexample: a float64 destination whose row-0 source double is
NaN.  The claim says this row triggers promotion to string and immediate
delegation to the string path; instead the loop-top NaN guard marks the
row absent (`clear`, since `is_update = false`), the column's dtype stays
`float64`, and no string conversion happens. -/
theorem claim_C2_cex :
    fill_numeric_iter L0 arrNaN 0 .float64 false .float64 colF64 =
      ⟨.float64, [.i 0], [.cleared]⟩ := by decide

/-- C2 (amended): on the iterative numeric path with a 64-bit-integer or
64-bit-float destination, the promotion-to-string branches are
unreachable — the int64 branch tests `npy_isnan` of an integer (constant
false) and the float64 branch re-tests the value the loop-top guard just
found non-NaN.  The column's dtype is never rewritten; a NaN row is
marked absent by the `is_update`-selected transition; a non-NaN row is
written numerically. -/
theorem claim_C2 (L : Loader) (arr : RawArray) (cidx : Nat)
    (npDtype : Dtype) (isUpdate : Bool) (type : Dtype) (col : Column)
    (htype : type = .int64 ∨ type = .float64) (hwf : col.wf) :
    (fill_numeric_iter L arr cidx npDtype isUpdate type col).dtype
      = col.dtype ∧
    (∀ j, j < col.size → npyIsnanF (arr.f64 j) = true →
      (fill_numeric_iter L arr cidx npDtype isUpdate type col).valid[j]? =
        some (absentMark isUpdate)) ∧
    (∀ j v, j < col.size → npyIsnanF (arr.f64 j) = false →
      numericWrite arr npDtype type j = some v →
      (fill_numeric_iter L arr cidx npDtype isUpdate type col).data[j]? =
        some v) := by
  have hne : type ≠ .int32 := by
    rcases htype with h | h <;> subst h <;> decide
  have hnum : isNumericDtype type = true := by
    rcases htype with h | h <;> subst h <;> rfl
  refine ⟨fill_numeric_iter_dtype L arr cidx npDtype isUpdate type col hne,
    ?_, ?_⟩
  · intro j hj hnan
    rw [fill_numeric_iter_valid L arr cidx npDtype isUpdate type col j hnum
      hwf hj]
    simp [hnan]
  · intro j v hj hnan hv
    exact fill_numeric_iter_data_write L arr cidx npDtype isUpdate type col
      j v hne hnan hv hj

/-- C2 witness: `claim_C2` at the concrete NaN fixture. -/
theorem claim_C2_witness :
    (fill_numeric_iter L0 arrNaN 0 .float64 false .float64 colF64).dtype
      = colF64.dtype ∧
    (fill_numeric_iter L0 arrNaN 0 .float64 false .float64 colF64).valid[0]?
      = some (absentMark false) := by
  have h := claim_C2 L0 arrNaN 0 .float64 false .float64 colF64
    (Or.inr rfl) rfl
  exact ⟨h.1, h.2.1 0 (by decide) (by decide)⟩

/-- C3 counterexample: `fill_table` with `limit = 0` on a nonempty table
performs no validation and reaches the `(row + offset) % 0` modulus,
which is undefined behavior (modelled `none`); there is no `InvalidLimit`
failure anywhere in the code. -/
theorem claim_C3_cex : fill_table L0 tbl1 [] "" 0 0 false = none := by
  decide

/-- C3 (amended): `fill_table` never validates the limit.  On the
row-number index path a `limit` of `0` leads straight into the
`% 0` modulus — undefined behavior, modelled as `none` by `mod32?` — for
any nonempty table, and any nonzero limit generates the index without
failure. -/
theorem claim_C3 (tbl : Table) (offset : Nat) :
    (0 < tbl.size → synthesizeIndex tbl false "" offset 0 = none) ∧
    (∀ limit, limit ≠ 0 →
      ∃ t', synthesizeIndex tbl false "" offset limit = some t') := by
  constructor
  · intro h
    exact synthesizeIndex_limit0 tbl offset h
  · intro limit hlim
    obtain ⟨t', pk1, hsyn, _, _, _⟩ :=
      synthesizeIndex_generated tbl offset limit hlim
    exact ⟨t', hsyn⟩

/-- C3 witness: `claim_C3` at the one-row table. -/
theorem claim_C3_witness :
    synthesizeIndex tbl1 false "" 0 0 = none ∧
    ∃ t', synthesizeIndex tbl1 false "" 0 5 = some t' :=
  ⟨(claim_C3 tbl1 0).1 (by decide), (claim_C3 tbl1 0).2 5 (by decide)⟩

/-- C4 counterexample: a 64-bit (unsigned) source feeding a
32-bit-integer destination takes the bulk path — the mismatch guard only
fires for a signed `int64` source, so the claimed "any strictly wider
integer source skips the bulk copy" is false. -/
theorem claim_C4_cex :
    (fill_column_data L0 zeroArr [] .uint64 .int32 0 false colI32).2
      = .bulk := by decide

/-- C4 (amended): `fill_column` takes the iterative path exactly when the
inferred source dtype is signed int64 feeding an int32 or float64
destination (the explicit guard), or when the source dtype is not one of
the ten numeric dtypes (bulk copy fails).  Every other combination —
including uint64 sources and int64 into narrower-than-32-bit integer
destinations — goes through the bulk copy. -/
theorem claim_C4 (L : Loader) (arr : RawArray) (mask : List Nat)
    (npDtype type : Dtype) (cidx : Nat) (isUpdate : Bool) (col : Column) :
    (fill_column_data L arr mask npDtype type cidx isUpdate col).2
        = .iter ↔
      ((npDtype = .int64 ∧ (type = .int32 ∨ type = .float64)) ∨
        isNumericDtype npDtype = false) :=
  fill_column_data_snd L arr mask npDtype type cidx isUpdate col

/-- C4 witness: `claim_C4` at a concrete guarded combination. -/
theorem claim_C4_witness :
    (fill_column_data L0 zeroArr [] .int64 .int32 0 false colI32).2
      = .iter :=
  (claim_C4 L0 zeroArr [] .int64 .int32 0 false colI32).mpr
    (Or.inl ⟨rfl, Or.inl rfl⟩)

/-- C5 counterexample: the numpy NaT sentinel (`INT64_MIN`) on the
datetime path.  The claim says a NaN/sentinel timestamp marks its row
absent; instead `npy_isnan` of the int64 product is constant false, so
the row is written (the wrapped product) and left present. -/
theorem claim_C5_cex :
    fill_datetime_iter arrNaT false colTime =
      ⟨.time, [.i (wrapI64 (-(2 ^ 63) * 1000))], [.present]⟩ ∧
    (fill_datetime_iter arrNaT false colTime).valid[0]? ≠
      some (absentMark false) := by
  constructor
  · decide
  · decide

/-- C5 (amended): every datetime row is written as the source's raw int64
timestamp multiplied by 1000 (with 64-bit wraparound) and marked present;
the NaN test on the integer product is constant false, so no row is ever
marked absent on the datetime path. -/
theorem claim_C5 (arr : RawArray) (isUpdate : Bool) (col : Column)
    (hwf : col.wf) :
    ∀ j, j < col.size →
      (fill_datetime_iter arr isUpdate col).data[j]? =
        some (.i (wrapI64 (arr.i64 j * 1000))) ∧
      (fill_datetime_iter arr isUpdate col).valid[j]? = some .present := by
  intro j hj
  exact ⟨fill_datetime_iter_data arr isUpdate col j hj,
    fill_datetime_iter_valid arr isUpdate col j hwf hj⟩

/-- C5 witness: `claim_C5` at the NaT fixture. -/
theorem claim_C5_witness :
    (fill_datetime_iter arrNaT false colTime).data[0]? =
      some (.i (wrapI64 (arrNaT.i64 0 * 1000))) ∧
    (fill_datetime_iter arrNaT false colTime).valid[0]? = some .present :=
  claim_C5 arrNaT false colTime rfl 0 (by decide)

/-- C6: with no `__INDEX__` sentinel in the schema and no explicit index
name, `fill_table` writes `(row + offset) mod limit` (uint32 arithmetic,
stored as int32) into both `psp_pkey` and `psp_okey` for every row below
the table size. -/
theorem claim_C6 (L : Loader) (tbl : Table)
    (schema : List (String × Dtype)) (offset limit : Nat) (isUpdate : Bool)
    (t' : Table) (hschema : ∀ p ∈ schema, p.1 ≠ "__INDEX__")
    (hlim : limit ≠ 0)
    (hres : fill_table L tbl schema "" offset limit isUpdate = some t') :
    ∃ pk ok, t'.getColumn "psp_pkey" = some pk ∧
      t'.getColumn "psp_okey" = some ok ∧
      ∀ j, j < tbl.size →
        pk.data[j]? = some (.i (wrapI32 ((j + offset) % 2 ^ 32 % limit))) ∧
        ok.data[j]? =
          some (.i (wrapI32 ((j + offset) % 2 ^ 32 % limit))) := by
  obtain ⟨t1, fl, hpc, hsyn⟩ :=
    fill_table_split L tbl schema "" offset limit isUpdate t' hres
  have hfl : fl = false :=
    processColumns_flag L isUpdate schema 0 tbl t1 fl hschema hpc
  subst hfl
  have hsz : t1.size = tbl.size :=
    processColumns_size L isUpdate schema 0 tbl false t1 false hpc
  obtain ⟨t2, pk1, hsyn2, hp, ho, hv⟩ :=
    synthesizeIndex_generated t1 offset limit hlim
  rw [hsyn2, Option.some.injEq] at hsyn
  refine ⟨pk1, pk1, by rw [← hsyn]; exact hp, by rw [← hsyn]; exact ho, ?_⟩
  intro j hj
  have hj1 : j < t1.size := by rw [hsz]; exact hj
  exact ⟨hv j hj1, hv j hj1⟩

/-- C6 witness: `offset = 5`, `limit = 10`, an 8-row table; `claim_C6`
instantiated, plus the concrete check that row 7 holds `2` in both
columns. -/
theorem claim_C6_witness :
    fill_table L0 tblC6 [] "" 5 10 false = some tC6 ∧
    pkC6.data[7]? = some (.i 2) ∧
    (∃ pk ok, tC6.getColumn "psp_pkey" = some pk ∧
      tC6.getColumn "psp_okey" = some ok ∧
      ∀ j, j < tblC6.size →
        pk.data[j]? = some (.i (wrapI32 ((j + 5) % 2 ^ 32 % 10))) ∧
        ok.data[j]? = some (.i (wrapI32 ((j + 5) % 2 ^ 32 % 10)))) :=
  ⟨by decide, by decide,
    claim_C6 L0 tblC6 [] 5 10 false tC6 (by simp) (by decide) (by decide)⟩

/-- C7: every absence-marking site applies `unset` when `is_update` is
true and `clear` when it is false (`absentMark`), and rows not marked
absent are untouched or written present: the null-position list after a
bulk copy, the NaN guard of the numeric iterative path, and the
"no value" marshal results of the string/bool/date paths. -/
theorem claim_C7 :
    (∀ (mask : List Nat) (isUpdate : Bool) (col : Column) j,
      j ∈ mask → j < col.valid.length →
      (applyMask mask isUpdate col).valid[j]? =
        some (absentMark isUpdate)) ∧
    (∀ (mask : List Nat) (isUpdate : Bool) (col : Column) j, j ∉ mask →
      (applyMask mask isUpdate col).valid[j]? = col.valid[j]?) ∧
    (∀ (mask : List Nat) (isUpdate : Bool) (col : Column),
      (applyMask mask isUpdate col).data = col.data) ∧
    (∀ (L : Loader) (arr : RawArray) cidx npDtype isUpdate type
      (col : Column) j, isNumericDtype type = true → col.wf →
      j < col.size →
      (fill_numeric_iter L arr cidx npDtype isUpdate type col).valid[j]? =
        some (if npyIsnanF (arr.f64 j) then absentMark isUpdate
          else .present)) ∧
    (∀ (L : Loader) cidx isUpdate (col : Column) j, col.wf →
      j < col.size →
      (fill_string_iter L cidx isUpdate col).valid[j]? =
        some (match L.marshalStr cidx j with
          | none => absentMark isUpdate
          | some _ => .present)) ∧
    (∀ (L : Loader) cidx isUpdate (col : Column) j, col.wf →
      j < col.size →
      (fill_bool_iter L cidx isUpdate col).valid[j]? =
        some (match L.marshalBool cidx j with
          | none => absentMark isUpdate
          | some _ => .present)) ∧
    (∀ (L : Loader) cidx isUpdate (col : Column) j, col.wf →
      j < col.size →
      (fill_date_iter L cidx isUpdate col).valid[j]? =
        some (match L.marshalDate cidx j with
          | none => absentMark isUpdate
          | some _ => .present)) :=
  ⟨fun mask isU col j hm hl => applyMask_valid_mem isU mask col j hm hl,
    fun mask isU col j hm => applyMask_valid_notmem isU mask col j hm,
    fun mask isU col => applyMask_data isU mask col,
    fun L arr cidx npD isU type col j hn hw hj =>
      fill_numeric_iter_valid L arr cidx npD isU type col j hn hw hj,
    fun L cidx isU col j hw hj =>
      fill_string_iter_valid L cidx isU col j hw hj,
    fun L cidx isU col j hw hj =>
      fill_bool_iter_valid L cidx isU col j hw hj,
    fun L cidx isU col j hw hj =>
      fill_date_iter_valid L cidx isU col j hw hj⟩

/-- C7 witness: `claim_C7` components at concrete inputs, for both values
of `is_update`. -/
theorem claim_C7_witness :
    (applyMask [1] true colC1).valid[1]? = some (absentMark true) ∧
    (applyMask [1] false colC1).valid[1]? = some (absentMark false) ∧
    (applyMask [1] true colC1).valid[0]? = colC1.valid[0]? ∧
    (applyMask [1] true colC1).data = colC1.data ∧
    (fill_numeric_iter L0 arrNaN 0 .float64 true .float64 colF64).valid[0]?
      = some (if npyIsnanF (arrNaN.f64 0) then absentMark true
          else .present) ∧
    (fill_string_iter L0 0 false colI32).valid[0]? =
      some (match L0.marshalStr 0 0 with
        | none => absentMark false
        | some _ => .present) :=
  ⟨claim_C7.1 [1] true colC1 1 (by decide) (by decide),
    claim_C7.1 [1] false colC1 1 (by decide) (by decide),
    claim_C7.2.1 [1] true colC1 0 (by decide),
    claim_C7.2.2.1 [1] true colC1,
    claim_C7.2.2.2.1 L0 arrNaN 0 .float64 true .float64 colF64 0 rfl rfl
      (by decide),
    claim_C7.2.2.2.2.1 L0 0 false colI32 0 rfl (by decide)⟩

/-- C8: `copy_array` succeeds exactly for the ten fixed-width numeric
source dtypes and fails for every other dtype; its status depends only on
the source dtype — not on the source buffer, the destination column (or
its declared type), the offset, or any null information (which it never
reads). -/
theorem claim_C8 (arr arr2 : RawArray) (dest dest2 : Column)
    (npDtype : Dtype) (off off2 : Nat) :
    ((copy_array arr dest npDtype off).1 = .succeed ↔
      isNumericDtype npDtype = true) ∧
    (copy_array arr dest npDtype off).1 =
      (copy_array arr2 dest2 npDtype off2).1 := by
  constructor
  · rw [copy_array_fst]
    cases h : isNumericDtype npDtype <;> simp
  · rw [copy_array_fst, copy_array_fst]

/-- C8 witness: `claim_C8` at concrete inputs. -/
theorem claim_C8_witness :
    ((copy_array zeroArr colI32 .str 0).1 = .succeed ↔
      isNumericDtype .str = true) ∧
    (copy_array zeroArr colI32 .str 0).1 =
      (copy_array arrNaN colF64 .str 3).1 :=
  claim_C8 zeroArr arrNaN colI32 colF64 .str 0 3

/-- C9: after every successful `fill_table` call (with a schema that does
not use the reserved destination names), `psp_pkey` and `psp_okey` both
exist and are identical columns, on each synthesis path: `__INDEX__`
sentinel fill + clone, explicit index clone, or generated row numbers. -/
theorem claim_C9 (L : Loader) (tbl : Table)
    (schema : List (String × Dtype)) (index : String) (offset limit : Nat)
    (isUpdate : Bool) (t' : Table)
    (hp : ∀ p ∈ schema, p.1 ≠ "psp_pkey" ∧ p.1 ≠ "psp_okey")
    (hres : fill_table L tbl schema index offset limit isUpdate = some t') :
    ∃ pk, t'.getColumn "psp_pkey" = some pk ∧
      t'.getColumn "psp_okey" = some pk := by
  obtain ⟨t1, fl, hpc, hsyn⟩ :=
    fill_table_split L tbl schema index offset limit isUpdate t' hres
  cases fl with
  | true =>
      rw [synthesizeIndex_implicit t1 index offset limit,
        Option.some.injEq] at hsyn
      rw [← hsyn]
      exact processColumns_pkeq L isUpdate schema 0 tbl false t1 true hp hpc
        (fun h => absurd h (by decide)) rfl
  | false => exact synthesizeIndex_pkeq t1 index offset limit t' hsyn

/-- C9 witness: `claim_C9` at a concrete one-row generated-index run. -/
theorem claim_C9_witness :
    fill_table L0 tbl1 [] "" 0 1 false = some tC9 ∧
    ∃ pk, tC9.getColumn "psp_pkey" = some pk ∧
      tC9.getColumn "psp_okey" = some pk :=
  ⟨by decide, claim_C9 L0 tbl1 [] "" 0 1 false tC9 (by simp) (by decide)⟩

/-- C10: the iterative fallback path never consults the accessor's
null-position list — two fills differing only in that list produce the
same column — and on that path a row is marked absent exactly by the
per-row condition: the NaN double view on the numeric path, a "no value"
marshal result on the string/bool/date paths, and never on the datetime
path. -/
theorem claim_C10 :
    (∀ (L : Loader) (arr : RawArray) (m1 m2 : List Nat) npDtype type cidx
      isUpdate (col : Column),
      ((npDtype = .int64 ∧ (type = .int32 ∨ type = .float64)) ∨
        isNumericDtype npDtype = false) →
      fill_column_data L arr m1 npDtype type cidx isUpdate col =
        fill_column_data L arr m2 npDtype type cidx isUpdate col) ∧
    (∀ (L : Loader) (arr : RawArray) cidx npDtype isUpdate type
      (col : Column) j, isNumericDtype type = true → col.wf →
      j < col.size →
      ((fill_numeric_iter L arr cidx npDtype isUpdate type col).valid[j]?
          = some (absentMark isUpdate) ↔
        npyIsnanF (arr.f64 j) = true)) ∧
    (∀ (L : Loader) cidx isUpdate (col : Column) j, col.wf →
      j < col.size →
      ((fill_string_iter L cidx isUpdate col).valid[j]? =
          some (absentMark isUpdate) ↔ L.marshalStr cidx j = none)) ∧
    (∀ (L : Loader) cidx isUpdate (col : Column) j, col.wf →
      j < col.size →
      ((fill_bool_iter L cidx isUpdate col).valid[j]? =
          some (absentMark isUpdate) ↔ L.marshalBool cidx j = none)) ∧
    (∀ (L : Loader) cidx isUpdate (col : Column) j, col.wf →
      j < col.size →
      ((fill_date_iter L cidx isUpdate col).valid[j]? =
          some (absentMark isUpdate) ↔ L.marshalDate cidx j = none)) ∧
    (∀ (arr : RawArray) isUpdate (col : Column) j, col.wf →
      j < col.size →
      (fill_datetime_iter arr isUpdate col).valid[j]? = some .present) := by
  refine ⟨?_, ?_, ?_, ?_, ?_, ?_⟩
  · intro L arr m1 m2 npD type cidx isU col h
    exact fill_column_data_mask_indep L arr m1 m2 npD type cidx isU col h
  · intro L arr cidx npD isU type col j hn hw hj
    rw [fill_numeric_iter_valid L arr cidx npD isU type col j hn hw hj]
    cases hnan : npyIsnanF (arr.f64 j) <;> cases isU <;>
      simp [absentMark]
  · intro L cidx isU col j hw hj
    rw [fill_string_iter_valid L cidx isU col j hw hj]
    cases hm : L.marshalStr cidx j <;> cases isU <;>
      simp [absentMark]
  · intro L cidx isU col j hw hj
    rw [fill_bool_iter_valid L cidx isU col j hw hj]
    cases hm : L.marshalBool cidx j <;> cases isU <;>
      simp [absentMark]
  · intro L cidx isU col j hw hj
    rw [fill_date_iter_valid L cidx isU col j hw hj]
    cases hm : L.marshalDate cidx j <;> cases isU <;>
      simp [absentMark]
  · intro arr isU col j hw hj
    exact fill_datetime_iter_valid arr isU col j hw hj

/-- C10 witness: `claim_C10` components at concrete inputs. -/
theorem claim_C10_witness :
    fill_column_data L0 zeroArr [0] .str .int32 0 false colI32 =
      fill_column_data L0 zeroArr [] .str .int32 0 false colI32 ∧
    ((fill_numeric_iter L0 arrNaN 0 .float64 false .float64
        colF64).valid[0]? = some (absentMark false) ↔
      npyIsnanF (arrNaN.f64 0) = true) ∧
    (fill_datetime_iter arrNaT false colTime).valid[0]? = some .present :=
  ⟨claim_C10.1 L0 zeroArr [0] [] .str .int32 0 false colI32 (Or.inr rfl),
    claim_C10.2.1 L0 arrNaN 0 .float64 false .float64 colF64 0 rfl rfl
      (by decide),
    claim_C10.2.2.2.2.2 arrNaT false colTime 0 rfl (by decide)⟩
